import Mathlib

/-!
Verification of the IFC-to-Neo4j extraction pipeline of this repository
(`backend/ifc_parser.py`, `backend/neo4j_service.py`).

The pipeline is embedded shallowly:

* an IFC file is a list of entities together with the set of type names the
  file's schema declares (`ifcopenshell`'s `by_type` raises for names that
  the schema does not declare, and returns all instances of the given type
  and of its subtypes otherwise);
* every Cypher statement issued by `parse_ifc_to_neo4j` is one of three
  shapes, reified as the inductive `Query` (a session-wide `DETACH DELETE`,
  a single-node `CREATE`, or a `MATCH`/`MATCH`/`CREATE` relationship
  statement whose two `MATCH` patterns filter on `guid` and `session_id`
  and optionally on a label);
* the property graph is a list of nodes (with internal ids) and a list of
  edges between internal ids; `applyQuery` gives the Cypher semantics of
  the three statement shapes;
* Python exceptions are modelled by `Option`: a helper returns `none` where
  the source raises, and the caller either propagates the `none` (no
  `try`/`except` in the source) or replaces it by a fallback (the source
  catches and logs).

Floats that the source merely passes through (storey elevations, geometry
vertices) are modelled as rationals.
-/

/-- Triangulated shape data as returned by `ifcopenshell.geom.create_shape`:
a flat coordinate list `verts` and a flat vertex-index list `faces`. -/
structure Shape where
  verts : List Rat
  faces : List Nat
deriving DecidableEq, Repr

/-- A cross-reference to another entity, as seen through
`rel.RelatingStructure` / `rel.RelatingObject`: the referenced entity's
class (with its ancestors, for `is_a` tests) and its `GlobalId`. -/
structure Ref where
  types : List String
  guid : String
deriving DecidableEq, Repr

/-- One IFC entity as the parser reads it.  `className` is the result of
`is_a()`; `types` lists the entity's class together with all of its
ancestor classes, so that `by_type t` returns the entity iff `t ∈ types`.
`name`, `description` and `elevation` are `none` when the attribute is
unset (Python `None`).  `representation` is the truthiness of
`product.Representation`; `shape` is `none` when
`ifcopenshell.geom.create_shape` raises or returns a falsy value.
`containedInStructure` holds, for each relation in the inverse attribute
`ContainedInStructure`, its `RelatingStructure` (`none` for a null
reference); `decomposes` does the same for `Decomposes` and
`RelatingObject`. -/
structure IfcEntity where
  className : String
  types : List String
  guid : String
  name : Option String
  description : Option String
  elevation : Option Rat
  representation : Bool
  shape : Option Shape
  containedInStructure : List (Option Ref)
  decomposes : List (Option Ref)
deriving DecidableEq, Repr

/-- An opened IFC file: its entities and the type names declared by its
schema (IFC2X3 does not declare `IfcFurniture`; IFC4 does). -/
structure IfcFile where
  schemaTypes : List String
  entities : List IfcEntity
deriving DecidableEq, Repr

/-- `ifc_file.by_type t`: raises (`none`) when the schema does not declare
`t`, otherwise returns every entity whose class or ancestor class is `t`. -/
def byType (f : IfcFile) (t : String) : Option (List IfcEntity) :=
  if t ∈ f.schemaTypes then some (f.entities.filter (fun e => t ∈ e.types)) else none

/-- `by_type` with the exception replaced by the empty list; used where the
source wraps the call in `try`/`except`. -/
def byTypeList (f : IfcFile) (t : String) : List IfcEntity :=
  (byType f t).getD []

/-- Python `x or ""` on an optional string attribute: `None` and the empty
string are both falsy and yield `""`. -/
def pyStrOrEmpty : Option String → String
  | some s => if s = "" then "" else s
  | none => ""

/-- `extract_element_data` (ifc_parser.py lines 353-359): the flat record
`{guid, name, description}` with `Name or ""` / `Description or ""`. -/
structure ElementData where
  guid : String
  name : String
  description : String
deriving DecidableEq, Repr

def extract_element_data (e : IfcEntity) : ElementData :=
  { guid := e.guid
    name := pyStrOrEmpty e.name
    description := pyStrOrEmpty e.description }

/-- The properties a `CREATE` statement of the parser sets on a node,
together with the node's labels.  `elevation` is set only for storeys and
`element_type` only for furnishing/extended elements; `none` means the
property is absent from the `CREATE`. -/
structure NodeData where
  labels : List String
  guid : String
  name : String
  description : String
  session_id : String
  elevation : Option Rat
  element_type : Option String
deriving DecidableEq, Repr

/-- The three Cypher statement shapes issued by `parse_ifc_to_neo4j`:
the session purge (line 16-19), a node `CREATE`, and a
`MATCH (src {guid, session_id}) MATCH (dst {guid, session_id}) CREATE
(src)-[:relType]->(dst)` statement whose patterns carry an optional label
(present for `CONTAINS_STOREY` / `CONTAINS_SPACE`, absent for `CONTAINS`
and `DECOMPOSES`). -/
inductive Query where
  | deleteSession (sid : String)
  | createNode (d : NodeData)
  | createRel (relType : String) (srcLabel : Option String) (srcGuid : String)
      (dstLabel : Option String) (dstGuid : String) (sid : String)
deriving DecidableEq, Repr

/-- Node data for the `CREATE (b:IfcBuilding ...)` statement (lines 82-92);
the same shape serves spaces, doors, windows and element proxies, which set
the same four properties under their own label. -/
def simpleNodeData (label : String) (e : IfcEntity) (sid : String) : NodeData :=
  { labels := [label]
    guid := (extract_element_data e).guid
    name := (extract_element_data e).name
    description := (extract_element_data e).description
    session_id := sid
    elevation := none
    element_type := none }

/-- Storey node data (lines 96-112): `extract_element_data` plus
`elevation = float(storey.Elevation) if ... and storey.Elevation else 0.0`
(an unset or zero elevation is falsy and yields `0.0`). -/
def storeyNodeData (e : IfcEntity) (sid : String) : NodeData :=
  { labels := ["IfcBuildingStorey"]
    guid := (extract_element_data e).guid
    name := (extract_element_data e).name
    description := (extract_element_data e).description
    session_id := sid
    elevation := some (match e.elevation with
      | some x => if x = 0 then 0 else x
      | none => 0)
    element_type := none }

/-- Furniture node data (lines 242-253): always created under the
`IfcFurnishingElement` label, with `element_type` recording which
`by_type` query (IfcFurnishingElement or IfcFurniture) produced it. -/
def furnitureNodeData (e : IfcEntity) (furnitureType : String) (sid : String) : NodeData :=
  { labels := ["IfcFurnishingElement"]
    guid := (extract_element_data e).guid
    name := (extract_element_data e).name
    description := (extract_element_data e).description
    session_id := sid
    elevation := none
    element_type := some furnitureType }

/-- Extended element node data (lines 280-291): the generic `IfcElement`
label plus the specific type label, with `element_type` set. -/
def otherElementNodeData (e : IfcEntity) (elementType : String) (sid : String) : NodeData :=
  { labels := ["IfcElement", elementType]
    guid := (extract_element_data e).guid
    name := (extract_element_data e).name
    description := (extract_element_data e).description
    session_id := sid
    elevation := none
    element_type := some elementType }

/-- The stride-3 index loop of lines 47-53: starting at `i = 0, 3, 6, ...`
it appends `l[i], l[i+1], l[i+2]`; when the remaining suffix is shorter
than 3 but non-empty the subscript raises `IndexError` (`none`). -/
def extendByTriples {α : Type} : List α → Option (List α)
  | [] => some []
  | a :: b :: c :: rest => (extendByTriples rest).map (fun t => a :: b :: c :: t)
  | _ => none

/-- One entry of the `geometry_data` list (lines 56-62). -/
structure GeometryInfo where
  type : String
  guid : String
  name : String
  vertices : List Rat
  indices : List Nat
deriving DecidableEq, Repr

/-- The per-product body of the geometry loop (lines 34-73).  Every failure
path of the body - no representation, `create_shape` raising or returning
a falsy shape, the `IndexError` of the stride-3 loops, or empty vertex or
index lists - yields `none`: the surrounding `try`/`except` logs and moves
to the next product. -/
def processGeometry (p : IfcEntity) : Option GeometryInfo :=
  if p.representation then
    p.shape.bind (fun shape =>
      (extendByTriples shape.verts).bind (fun vertices =>
        (extendByTriples shape.faces).bind (fun indices =>
          if 0 < vertices.length ∧ 0 < indices.length then
            some { type := p.className
                   guid := p.guid
                   name := pyStrOrEmpty p.name
                   vertices := vertices
                   indices := indices }
          else none)))
  else none

/-- Queries of the storey loop body (lines 96-129): the `CREATE`, then one
`CONTAINS_STOREY` statement per `Decomposes` relation whose
`RelatingObject` is an `IfcBuilding`.  Line 117 reads
`rel.RelatingObject.is_a("IfcBuilding")` without a null guard, so a null
`RelatingObject` raises an uncaught `AttributeError` (`none`); contrast
the guarded general pass at lines 331-333. -/
def storeyQueries (s : IfcEntity) (sid : String) : Option (List Query) :=
  (s.decomposes.mapM id).map (fun refs =>
    Query.createNode (storeyNodeData s sid) ::
      refs.filterMap (fun r =>
        if "IfcBuilding" ∈ r.types then
          some (Query.createRel "CONTAINS_STOREY" (some "IfcBuilding") r.guid
            (some "IfcBuildingStorey") s.guid sid)
        else none))

/-- Queries of the space loop body (lines 133-164), analogous to
`storeyQueries` with `CONTAINS_SPACE` and the same unguarded
`rel.RelatingObject` access at line 152. -/
def spaceQueries (sp : IfcEntity) (sid : String) : Option (List Query) :=
  (sp.decomposes.mapM id).map (fun refs =>
    Query.createNode (simpleNodeData "IfcSpace" sp sid) ::
      refs.filterMap (fun r =>
        if "IfcBuildingStorey" ∈ r.types then
          some (Query.createRel "CONTAINS_SPACE" (some "IfcBuildingStorey") r.guid
            (some "IfcSpace") sp.guid sid)
        else none))

/-- The furniture pass (lines 220-255): `IfcFurnishingElement` always, and
`IfcFurniture` additionally when the schema declares it
(`ifc_file.schema.declaration_by_name('IfcFurniture')` succeeds inside the
`try` of lines 226-230 exactly when the schema declares the name).  Each
type's `by_type` runs inside `try`/`except`, so an undeclared type
contributes nothing instead of aborting. -/
def furnitureQueries (f : IfcFile) (sid : String) : List Query :=
  (if "IfcFurniture" ∈ f.schemaTypes then ["IfcFurnishingElement", "IfcFurniture"]
    else ["IfcFurnishingElement"]).flatMap (fun ft =>
    (byTypeList f ft).map (fun e => Query.createNode (furnitureNodeData e ft sid)))

/-- The 26 extended element types of lines 258-267. -/
def all_element_types : List String :=
  ["IfcWall", "IfcSlab", "IfcRoof", "IfcColumn", "IfcBeam",
   "IfcStair", "IfcRamp", "IfcRailing", "IfcCurtainWall",
   "IfcPlate", "IfcMember", "IfcFooting", "IfcPile",
   "IfcFlowSegment", "IfcFlowFitting", "IfcFlowTerminal",
   "IfcFlowController", "IfcFlowMovingDevice", "IfcFlowStorageDevice",
   "IfcFlowTreatmentDevice", "IfcEnergyConversionDevice",
   "IfcTransportElement", "IfcVirtualElement", "IfcGeographicElement",
   "IfcSystemFurnitureElement", "IfcBuildingElementPart"]

/-- The extended element pass (lines 269-294): per type, a `try`-protected
`by_type` (types absent from the schema are logged and skipped) and one
`CREATE` per element under the labels `IfcElement:<type>`. -/
def otherElementQueries (f : IfcFile) (sid : String) : List Query :=
  all_element_types.flatMap (fun et =>
    (byTypeList f et).map (fun e => Query.createNode (otherElementNodeData e et sid)))

/-- The relationship pass body for one product (lines 302-345): a
`CONTAINS` statement per `ContainedInStructure` relation with a non-null
`RelatingStructure`, then a `DECOMPOSES` statement per `Decomposes`
relation with a non-null `RelatingObject` (both accesses are null-guarded
here).  Both `MATCH` patterns are label-free. -/
def productRelQueries (p : IfcEntity) (sid : String) : List Query :=
  p.containedInStructure.filterMap (fun r =>
    r.map (fun ref =>
      Query.createRel "CONTAINS" none ref.guid none p.guid sid)) ++
  p.decomposes.filterMap (fun r =>
    r.map (fun ref =>
      Query.createRel "DECOMPOSES" none ref.guid none p.guid sid))

/-- `parse_ifc_to_neo4j` (ifc_parser.py lines 11-350) as the list of Cypher
statements it issues, in issue order, paired with the returned
`geometry_data` list.  `none` models an exception escaping the function.
The session purge of lines 16-19 is issued first; the geometry loop
(lines 34-73, limited to the first 100 products) issues no statements;
then the per-type passes and finally the relationship pass over a fresh
`by_type("IfcProduct")` (line 300). -/
def parse_ifc_to_neo4j (f : IfcFile) (sid : String) :
    Option (List Query × List GeometryInfo) :=
  (byType f "IfcProduct").bind (fun products =>
  (byType f "IfcBuilding").bind (fun buildings =>
  (byType f "IfcBuildingStorey").bind (fun storeys =>
  ((storeys.mapM (fun s => storeyQueries s sid)).map List.flatten).bind (fun storeyQs =>
  (byType f "IfcSpace").bind (fun spaces =>
  ((spaces.mapM (fun sp => spaceQueries sp sid)).map List.flatten).bind (fun spaceQs =>
  (byType f "IfcDoor").bind (fun doors =>
  (byType f "IfcWindow").bind (fun windows =>
  (byType f "IfcBuildingElementProxy").bind (fun proxies =>
  (byType f "IfcProduct").bind (fun all_products =>
  some (Query.deleteSession sid ::
      (buildings.map (fun b => Query.createNode (simpleNodeData "IfcBuilding" b sid)) ++
        storeyQs ++ spaceQs ++
        doors.map (fun d => Query.createNode (simpleNodeData "IfcDoor" d sid)) ++
        windows.map (fun w => Query.createNode (simpleNodeData "IfcWindow" w sid)) ++
        proxies.map (fun e =>
          Query.createNode (simpleNodeData "IfcBuildingElementProxy" e sid)) ++
        furnitureQueries f sid ++ otherElementQueries f sid ++
        all_products.flatMap (fun p => productRelQueries p sid)),
    (products.take 100).filterMap processGeometry)))))))))))

/-! ## Property-graph semantics

The store that `neo4j_service.execute_query` writes to, restricted to the
three statement shapes the parser issues. -/

/-- A stored node: an internal id (Neo4j's node identity, fresh per
`CREATE`) and the created properties and labels. -/
structure GNode where
  nid : Nat
  data : NodeData
deriving DecidableEq, Repr

/-- A stored relationship between two internal node ids. -/
structure GEdge where
  relType : String
  src : Nat
  dst : Nat
deriving DecidableEq, Repr

/-- The graph state: nodes in creation order, edges in creation order, and
the next fresh internal id. -/
structure Graph where
  nodes : List GNode
  edges : List GEdge
  nextId : Nat
deriving DecidableEq, Repr

def Graph.empty : Graph := { nodes := [], edges := [], nextId := 0 }

/-- Does node data match a `MATCH` pattern `(n:label? {guid, session_id})`? -/
def matchData (lab : Option String) (guid sid : String) (d : NodeData) : Bool :=
  (match lab with
    | some L => d.labels.contains L
    | none => true) && d.guid == guid && d.session_id == sid

/-- Cypher semantics of the three statement shapes.

* `deleteSession`: `MATCH (n {session_id: sid}) DETACH DELETE n` removes
  every node carrying the session id and every relationship incident to a
  removed node.
* `createNode`: appends one node under a fresh internal id.
* `createRel`: `MATCH (src ...) MATCH (dst ...) CREATE (src)-[:r]->(dst)`
  creates one relationship per pair in the cartesian product of the two
  match sets; an empty match set creates nothing. -/
def applyQuery (g : Graph) : Query → Graph
  | Query.deleteSession s =>
    { nodes := g.nodes.filter (fun n => !(n.data.session_id == s))
      edges := g.edges.filter (fun e =>
        (g.nodes.filter (fun n => !(n.data.session_id == s))).any
            (fun n => n.nid == e.src) &&
          (g.nodes.filter (fun n => !(n.data.session_id == s))).any
            (fun n => n.nid == e.dst))
      nextId := g.nextId }
  | Query.createNode d =>
    { nodes := g.nodes ++ [{ nid := g.nextId, data := d }]
      edges := g.edges
      nextId := g.nextId + 1 }
  | Query.createRel r slab sg dlab dg s =>
    { nodes := g.nodes
      edges := g.edges ++
        (g.nodes.filter (fun n => matchData slab sg s n.data)).flatMap (fun a =>
          (g.nodes.filter (fun n => matchData dlab dg s n.data)).map
            (fun b => { relType := r, src := a.nid, dst := b.nid }))
      nextId := g.nextId }

/-- Running a statement list in order. -/
def applyTrace (τ : List Query) (g : Graph) : Graph :=
  τ.foldl applyQuery g

/-- Well-formedness of a graph state: internal ids are distinct and below
`nextId`, and edges reference only ids below `nextId`.  Holds for the
empty graph and is preserved by every statement. -/
def WF (g : Graph) : Prop :=
  (∀ n ∈ g.nodes, n.nid < g.nextId) ∧
  g.nodes.Pairwise (fun a b => a.nid ≠ b.nid) ∧
  (∀ e ∈ g.edges, e.src < g.nextId ∧ e.dst < g.nextId)

/-! ## The session-local view

`sidView g sid` is the subgraph of `g` carrying session id `sid`, with
internal node ids replaced by positions in the session's node list: the
state of one session up to renaming of Neo4j-internal identities. -/

/-- The session's nodes, in creation order. -/
def sidNodes (g : Graph) (sid : String) : List GNode :=
  g.nodes.filter (fun n => n.data.session_id == sid)

/-- Translate an edge to session-local positions; `none` when an endpoint
is not a node of the session. -/
def transEdge (fl : List GNode) (e : GEdge) : Option (String × Nat × Nat) :=
  if fl.any (fun n => n.nid == e.src) && fl.any (fun n => n.nid == e.dst) then
    some (e.relType, fl.findIdx (fun n => n.nid == e.src),
      fl.findIdx (fun n => n.nid == e.dst))
  else none

/-- A session-local graph: node data by position, edges by positions. -/
def SessionView : Type := List NodeData × List (String × Nat × Nat)

instance : DecidableEq SessionView := by
  unfold SessionView
  infer_instance

/-- The session-`sid` part of a graph state, up to internal-id renaming. -/
def sidView (g : Graph) (sid : String) : SessionView :=
  ((sidNodes g sid).map (fun n => n.data),
    g.edges.filterMap (transEdge (sidNodes g sid)))

/-- The positions (in order) of the entries of a data list matching a
predicate. -/
def matchIdxs (p : NodeData → Bool) : List NodeData → List Nat
  | [] => []
  | d :: ds =>
    if p d then 0 :: (matchIdxs p ds).map (· + 1)
    else (matchIdxs p ds).map (· + 1)

/-- The effect of one statement on a session-local view alone.  This is the
abstract counterpart of `applyQuery`; `sidView_applyQuery` below proves
the correspondence. -/
def stepView (sid : String) (v : SessionView) : Query → SessionView
  | Query.deleteSession s => if s == sid then ([], []) else v
  | Query.createNode d => if d.session_id == sid then (v.1 ++ [d], v.2) else v
  | Query.createRel r slab sg dlab dg s =>
    if s == sid then
      (v.1, v.2 ++ (matchIdxs (matchData slab sg s) v.1).flatMap (fun i =>
        (matchIdxs (matchData dlab dg s) v.1).map (fun j => (r, i, j))))
    else v

/-! ## List helper lemmas -/

lemma findIdx_append_left {α : Type} (p : α → Bool) (l l' : List α) (h : l.any p = true) :
    (l ++ l').findIdx p = l.findIdx p := by
  induction l with
  | nil => simp at h
  | cons x xs ih =>
    rw [List.cons_append, List.findIdx_cons, List.findIdx_cons]
    cases hx : p x with
    | true => simp
    | false =>
      simp only [cond_false]
      have hxs : xs.any p = true := by
        simp only [List.any_cons, hx, Bool.false_or] at h
        exact h
      rw [ih hxs]

lemma filterMap_filter_of_none {α β : Type} (p : α → Bool) (f : α → Option β) (l : List α)
    (h : ∀ a ∈ l, p a = false → f a = none) :
    (l.filter p).filterMap f = l.filterMap f := by
  induction l with
  | nil => rfl
  | cons x xs ih =>
    have ih' := ih (fun a ha => h a (List.mem_cons_of_mem _ ha))
    cases hx : p x with
    | true => simp [List.filter_cons, hx, List.filterMap_cons, ih']
    | false =>
      have hfx := h x (List.mem_cons_self _ _) hx
      simp [List.filter_cons, hx, List.filterMap_cons, hfx, ih']

lemma filterMap_eq_map_of_mem {α β : Type} (f : α → Option β) (h : α → β) (l : List α)
    (hl : ∀ a ∈ l, f a = some (h a)) : l.filterMap f = l.map h := by
  induction l with
  | nil => rfl
  | cons x xs ih =>
    have hx := hl x (List.mem_cons_self _ _)
    simp [List.filterMap_cons, hx, ih (fun a ha => hl a (List.mem_cons_of_mem _ ha))]

lemma filterMap_congr_mem {α β : Type} (f g : α → Option β) (l : List α)
    (hl : ∀ a ∈ l, f a = g a) : l.filterMap f = l.filterMap g := by
  induction l with
  | nil => rfl
  | cons x xs ih =>
    have hx := hl x (List.mem_cons_self _ _)
    simp only [List.filterMap_cons, hx,
      ih (fun a ha => hl a (List.mem_cons_of_mem _ ha))]

/-- In a list of nodes with pairwise-distinct internal ids, an id determines
the node. -/
lemma nid_inj {l : List GNode} (hnd : l.Pairwise (fun a b => a.nid ≠ b.nid))
    {a b : GNode} (ha : a ∈ l) (hb : b ∈ l) (hab : a.nid = b.nid) : a = b := by
  induction l with
  | nil => cases ha
  | cons x xs ih =>
    rcases List.pairwise_cons.mp hnd with ⟨hx, hxs⟩
    rcases List.mem_cons.mp ha with rfl | ha'
    · rcases List.mem_cons.mp hb with rfl | hb'
      · rfl
      · exact absurd hab (hx b hb')
    · rcases List.mem_cons.mp hb with rfl | hb'
      · exact absurd hab.symm (hx a ha')
      · exact ih hxs ha' hb'

/-- Positions of pattern-matching nodes: filtering the node list and taking
each node's `findIdx` position agrees with `matchIdxs` on the data list. -/
lemma matchIdxs_spec (p : NodeData → Bool) (fl : List GNode)
    (hnd : fl.Pairwise (fun a b => a.nid ≠ b.nid)) :
    (fl.filter (fun n => p n.data)).map
        (fun n => fl.findIdx (fun m => m.nid == n.nid)) =
      matchIdxs p (fl.map (fun n => n.data)) := by
  induction fl with
  | nil => simp [matchIdxs]
  | cons x xs ih =>
    rcases List.pairwise_cons.mp hnd with ⟨hx, hxs⟩
    have hstep : ∀ n ∈ xs.filter (fun n => p n.data),
        (x :: xs).findIdx (fun m => m.nid == n.nid) =
          xs.findIdx (fun m => m.nid == n.nid) + 1 := by
      intro n hn
      have hne : x.nid ≠ n.nid := hx n (List.mem_of_mem_filter hn)
      have hbeq : (x.nid == n.nid) = false := beq_eq_false_iff_ne.mpr hne
      rw [List.findIdx_cons, hbeq, cond_false]
    have htail : (xs.filter (fun n => p n.data)).map
          (fun n => (x :: xs).findIdx (fun m => m.nid == n.nid)) =
        (matchIdxs p (xs.map (fun n => n.data))).map (· + 1) := by
      rw [List.map_congr_left hstep]
      rw [← ih hxs, List.map_map]
      rfl
    cases hp : p x.data with
    | true =>
      have hhead : (x :: xs).findIdx (fun m => m.nid == x.nid) = 0 := by
        rw [List.findIdx_cons]; simp
      have hrhs : matchIdxs p ((x :: xs).map (fun n => n.data)) =
          0 :: (matchIdxs p (xs.map (fun n => n.data))).map (· + 1) := by
        simp [matchIdxs, hp]
      have hlhs : ((x :: xs).filter (fun n => p n.data)).map
            (fun n => (x :: xs).findIdx (fun m => m.nid == n.nid)) =
          0 :: (xs.filter (fun n => p n.data)).map
            (fun n => (x :: xs).findIdx (fun m => m.nid == n.nid)) := by
        rw [List.filter_cons]
        simp only [hp, if_true, List.map_cons, hhead]
      rw [hlhs, htail, hrhs]
    | false =>
      have hrhs : matchIdxs p ((x :: xs).map (fun n => n.data)) =
          (matchIdxs p (xs.map (fun n => n.data))).map (· + 1) := by
        simp [matchIdxs, hp]
      have hlhs : ((x :: xs).filter (fun n => p n.data)).map
            (fun n => (x :: xs).findIdx (fun m => m.nid == n.nid)) =
          (xs.filter (fun n => p n.data)).map
            (fun n => (x :: xs).findIdx (fun m => m.nid == n.nid)) := by
        rw [List.filter_cons]
        simp [hp]
      rw [hlhs, htail, hrhs]

/-! ## Well-formedness preservation -/

lemma WF_empty : WF Graph.empty := by
  refine ⟨?_, ?_, ?_⟩ <;> simp [Graph.empty, WF]

lemma WF_applyQuery {g : Graph} (hwf : WF g) (q : Query) : WF (applyQuery g q) := by
  obtain ⟨hbound, hnd, hedge⟩ := hwf
  cases q with
  | deleteSession s =>
    simp only [applyQuery, WF]
    refine ⟨?_, ?_, ?_⟩
    · intro n hn
      exact hbound n (List.mem_of_mem_filter hn)
    · exact List.Pairwise.sublist (List.filter_sublist _) hnd
    · intro e he
      exact hedge e (List.mem_of_mem_filter he)
  | createNode d =>
    simp only [applyQuery, WF]
    refine ⟨?_, ?_, ?_⟩
    · intro n hn
      rcases List.mem_append.mp hn with h | h
      · exact Nat.lt_succ_of_lt (hbound n h)
      · have : n = { nid := g.nextId, data := d } := by
          simpa using h
        subst this
        exact Nat.lt_succ_self _
    · rw [List.pairwise_append]
      refine ⟨hnd, List.pairwise_singleton _ _, ?_⟩
      intro a ha b hb
      have : b = { nid := g.nextId, data := d } := by
        simpa using hb
      subst this
      exact Nat.ne_of_lt (hbound a ha)
    · intro e he
      exact ⟨Nat.lt_succ_of_lt (hedge e he).1, Nat.lt_succ_of_lt (hedge e he).2⟩
  | createRel r slab sg dlab dg s =>
    simp only [applyQuery, WF]
    refine ⟨hbound, hnd, ?_⟩
    intro e he
    rcases List.mem_append.mp he with h | h
    · exact hedge e h
    · rcases List.mem_flatMap.mp h with ⟨a, ha, hmem⟩
      rcases List.mem_map.mp hmem with ⟨b, hb, rfl⟩
      exact ⟨hbound a (List.mem_of_mem_filter ha), hbound b (List.mem_of_mem_filter hb)⟩

lemma WF_applyTrace {g : Graph} (hwf : WF g) (τ : List Query) : WF (applyTrace τ g) := by
  induction τ generalizing g with
  | nil => exact hwf
  | cons q qs ih => exact ih (WF_applyQuery hwf q)

lemma flatMap_congr_mem {α β : Type} (f g : α → List β) (l : List α)
    (hl : ∀ a ∈ l, f a = g a) : l.flatMap f = l.flatMap g := by
  induction l with
  | nil => rfl
  | cons x xs ih =>
    have hx := hl x (List.mem_cons_self _ _)
    simp only [List.flatMap_cons, hx,
      ih (fun a ha => hl a (List.mem_cons_of_mem _ ha))]

lemma mem_sidNodes {g : Graph} {sid : String} {n : GNode} :
    n ∈ sidNodes g sid ↔ n ∈ g.nodes ∧ n.data.session_id = sid := by
  unfold sidNodes
  rw [List.mem_filter]
  simp

lemma sidNodes_pairwise {g : Graph} (hwf : WF g) (sid : String) :
    (sidNodes g sid).Pairwise (fun a b => a.nid ≠ b.nid) :=
  List.Pairwise.sublist (List.filter_sublist _) hwf.2.1

lemma bool_and_eq_true (a b : Bool) : ((a && b) = true) ↔ (a = true ∧ b = true) := by
  cases a <;> cases b <;> simp

/-- One statement's effect on the session-local view is computed by
`stepView` from the view alone: the core simulation lemma behind
determinism and idempotence of re-import. -/
lemma sidView_applyQuery {g : Graph} (hwf : WF g) (sid : String) (q : Query) :
    sidView (applyQuery g q) sid = stepView sid (sidView g sid) q := by
  obtain ⟨hbound, hnd, hedge⟩ := hwf
  cases q with
  | deleteSession s =>
    by_cases hs : s = sid
    · subst hs
      have hfl : sidNodes (applyQuery g (Query.deleteSession s)) s = [] := by
        unfold sidNodes applyQuery
        rw [List.filter_filter]
        have h : ∀ n ∈ g.nodes,
            ((n.data.session_id == s) && !(n.data.session_id == s)) = false := by
          intro n _
          cases h : n.data.session_id == s <;> simp [h]
        rw [List.filter_congr h]
        simp
      have htrans : ∀ e, transEdge ([] : List GNode) e = none := by
        intro e
        unfold transEdge
        simp
      simp only [stepView, beq_self_eq_true, if_true]
      unfold sidView
      rw [hfl]
      exact congrArg₂ Prod.mk rfl
        (List.filterMap_eq_nil_iff.mpr (fun a _ => htrans a))
    · have hbe : (s == sid) = false := beq_eq_false_iff_ne.mpr hs
      simp only [stepView, hbe, Bool.false_eq_true, if_false]
      have hfl : sidNodes (applyQuery g (Query.deleteSession s)) sid = sidNodes g sid := by
        unfold sidNodes applyQuery
        rw [List.filter_filter]
        apply List.filter_congr
        intro n _
        cases h : n.data.session_id == sid with
        | false => simp [h]
        | true =>
          have hses : n.data.session_id = sid := eq_of_beq h
          have h2 : (n.data.session_id == s) = false := by
            rw [hses]
            exact beq_eq_false_iff_ne.mpr (fun hh => hs hh.symm)
          simp [h, h2]
      unfold sidView
      rw [hfl]
      refine congrArg₂ Prod.mk rfl ?_
      show List.filterMap (transEdge (sidNodes g sid))
          ((applyQuery g (Query.deleteSession s)).edges) = _
      simp only [applyQuery]
      apply filterMap_filter_of_none
      intro e he hsurv
      by_cases hcond : ((sidNodes g sid).any (fun n => n.nid == e.src) &&
          (sidNodes g sid).any (fun n => n.nid == e.dst)) = true
      · exfalso
        obtain ⟨h1, h2⟩ := (bool_and_eq_true _ _).mp hcond
        obtain ⟨a, ha, hba⟩ := List.any_eq_true.mp h1
        obtain ⟨b, hb, hbb⟩ := List.any_eq_true.mp h2
        obtain ⟨hag, has⟩ := mem_sidNodes.mp ha
        obtain ⟨hbg, hbs⟩ := mem_sidNodes.mp hb
        have hka : (a.data.session_id == s) = false := by
          rw [has]
          exact beq_eq_false_iff_ne.mpr (fun hh => hs hh.symm)
        have hkb : (b.data.session_id == s) = false := by
          rw [hbs]
          exact beq_eq_false_iff_ne.mpr (fun hh => hs hh.symm)
        have hsurv' : ((List.filter (fun n => !(n.data.session_id == s)) g.nodes).any
              (fun n => n.nid == e.src) &&
            (List.filter (fun n => !(n.data.session_id == s)) g.nodes).any
              (fun n => n.nid == e.dst)) = true := by
          refine (bool_and_eq_true _ _).mpr ⟨?_, ?_⟩
          · exact List.any_eq_true.mpr
              ⟨a, List.mem_filter.mpr ⟨hag, by simp [hka]⟩, hba⟩
          · exact List.any_eq_true.mpr
              ⟨b, List.mem_filter.mpr ⟨hbg, by simp [hkb]⟩, hbb⟩
        rw [hsurv] at hsurv'
        cases hsurv'
      · unfold transEdge
        rw [if_neg hcond]
  | createNode d =>
    have hflsplit : sidNodes (applyQuery g (Query.createNode d)) sid =
        sidNodes g sid ++
          (if (d.session_id == sid) = true then [GNode.mk g.nextId d] else []) := by
      unfold sidNodes applyQuery
      rw [List.filter_append]
      congr 1
      simp [List.filter_cons]
    by_cases hd : (d.session_id == sid) = true
    · simp only [stepView, hd, if_true]
      have hfl : sidNodes (applyQuery g (Query.createNode d)) sid =
          sidNodes g sid ++ [GNode.mk g.nextId d] := by
        rw [hflsplit, if_pos hd]
      unfold sidView
      rw [hfl]
      refine congrArg₂ Prod.mk ?_ ?_
      · rw [List.map_append]
        rfl
      · show List.filterMap _ ((applyQuery g (Query.createNode d)).edges) = _
        simp only [applyQuery]
        apply filterMap_congr_mem
        intro e he
        have hsrc : e.src < g.nextId := (hedge e he).1
        have hdst : e.dst < g.nextId := (hedge e he).2
        have hbs : ((GNode.mk g.nextId d).nid == e.src) = false :=
          beq_eq_false_iff_ne.mpr (Nat.ne_of_lt hsrc).symm
        have hbd : ((GNode.mk g.nextId d).nid == e.dst) = false :=
          beq_eq_false_iff_ne.mpr (Nat.ne_of_lt hdst).symm
        unfold transEdge
        have hany1 : (sidNodes g sid ++ [GNode.mk g.nextId d]).any
            (fun n => n.nid == e.src) = (sidNodes g sid).any (fun n => n.nid == e.src) := by
          rw [List.any_append]
          simp [hbs]
        have hany2 : (sidNodes g sid ++ [GNode.mk g.nextId d]).any
            (fun n => n.nid == e.dst) = (sidNodes g sid).any (fun n => n.nid == e.dst) := by
          rw [List.any_append]
          simp [hbd]
        rw [hany1, hany2]
        by_cases hcond : ((sidNodes g sid).any (fun n => n.nid == e.src) &&
            (sidNodes g sid).any (fun n => n.nid == e.dst)) = true
        · rw [if_pos hcond, if_pos hcond]
          obtain ⟨h1, h2⟩ := (bool_and_eq_true _ _).mp hcond
          rw [findIdx_append_left _ _ _ h1, findIdx_append_left _ _ _ h2]
        · rw [if_neg hcond, if_neg hcond]
    · have hd' : (d.session_id == sid) = false := by
        cases h : d.session_id == sid
        · rfl
        · exact absurd h hd
      simp only [stepView, hd', Bool.false_eq_true, if_false]
      have hfl : sidNodes (applyQuery g (Query.createNode d)) sid = sidNodes g sid := by
        rw [hflsplit, if_neg hd, List.append_nil]
      unfold sidView
      rw [hfl]
      rfl
  | createRel r slab sg dlab dg s =>
    have hflsame : sidNodes (applyQuery g (Query.createRel r slab sg dlab dg s)) sid =
        sidNodes g sid := by
      unfold sidNodes applyQuery
      rfl
    have hmdses : ∀ (lab : Option String) (gd : String) (n : GNode),
        matchData lab gd s n.data = true → n.data.session_id = s := by
      intro lab gd n hm
      unfold matchData at hm
      rcases (bool_and_eq_true _ _).mp hm with ⟨_, h2⟩
      exact eq_of_beq h2
    by_cases hs : s = sid
    · subst hs
      simp only [stepView, beq_self_eq_true, if_true]
      unfold sidView
      rw [hflsame]
      refine congrArg₂ Prod.mk rfl ?_
      show List.filterMap _ ((applyQuery g (Query.createRel r slab sg dlab dg s)).edges) = _
      simp only [applyQuery]
      rw [List.filterMap_append]
      refine congrArg₂ (· ++ ·) rfl ?_
      have hpw : (sidNodes g s).Pairwise (fun a b => a.nid ≠ b.nid) :=
        sidNodes_pairwise ⟨hbound, hnd, hedge⟩ s
      have hfilter : ∀ (lab : Option String) (gd : String),
          g.nodes.filter (fun n => matchData lab gd s n.data) =
            (sidNodes g s).filter (fun n => matchData lab gd s n.data) := by
        intro lab gd
        unfold sidNodes
        rw [List.filter_filter]
        apply List.filter_congr
        intro n _
        cases hm : matchData lab gd s n.data with
        | false => simp
        | true =>
          have : (n.data.session_id == s) = true := beq_iff_eq.mpr (hmdses lab gd n hm)
          simp [this]
      have htrans_some : ∀ a ∈ sidNodes g s, ∀ b ∈ sidNodes g s,
          transEdge (sidNodes g s) (GEdge.mk r a.nid b.nid) =
            some (r, (sidNodes g s).findIdx (fun m => m.nid == a.nid),
              (sidNodes g s).findIdx (fun m => m.nid == b.nid)) := by
        intro a ha b hb
        unfold transEdge
        rw [if_pos]
        refine (bool_and_eq_true _ _).mpr ⟨?_, ?_⟩
        · exact List.any_eq_true.mpr ⟨a, ha, beq_self_eq_true _⟩
        · exact List.any_eq_true.mpr ⟨b, hb, beq_self_eq_true _⟩
      rw [hfilter slab sg, hfilter dlab dg]
      rw [List.filterMap_flatMap]
      rw [← matchIdxs_spec (matchData slab sg s) (sidNodes g s) hpw,
        ← matchIdxs_spec (matchData dlab dg s) (sidNodes g s) hpw]
      rw [List.flatMap_map]
      apply flatMap_congr_mem
      intro a ha
      have ha' : a ∈ sidNodes g s := List.mem_of_mem_filter ha
      rw [List.filterMap_map, List.map_map]
      apply filterMap_eq_map_of_mem
      intro b hb
      have hb' : b ∈ sidNodes g s := List.mem_of_mem_filter hb
      exact htrans_some a ha' b hb'
    · have hbe : (s == sid) = false := beq_eq_false_iff_ne.mpr hs
      simp only [stepView, hbe, Bool.false_eq_true, if_false]
      unfold sidView
      rw [hflsame]
      refine congrArg₂ Prod.mk rfl ?_
      show List.filterMap _ ((applyQuery g (Query.createRel r slab sg dlab dg s)).edges) = _
      simp only [applyQuery]
      rw [List.filterMap_append]
      have hnew : List.filterMap (transEdge (sidNodes g sid))
          ((g.nodes.filter (fun n => matchData slab sg s n.data)).flatMap (fun a =>
            (g.nodes.filter (fun n => matchData dlab dg s n.data)).map
              (fun b => GEdge.mk r a.nid b.nid))) = [] := by
        apply List.filterMap_eq_nil_iff.mpr
        intro ed hed
        obtain ⟨a, ha, hmem⟩ := List.mem_flatMap.mp hed
        obtain ⟨b, hb, rfl⟩ := List.mem_map.mp hmem
        have hases : a.data.session_id = s :=
          hmdses slab sg a (List.mem_filter.mp ha).2
        have hag : a ∈ g.nodes := List.mem_of_mem_filter ha
        unfold transEdge
        rw [if_neg]
        intro hcond
        obtain ⟨h1, _⟩ := (bool_and_eq_true _ _).mp hcond
        obtain ⟨n, hn, hbn⟩ := List.any_eq_true.mp h1
        obtain ⟨hng, hns⟩ := mem_sidNodes.mp hn
        have : n = a := nid_inj hnd hng hag (eq_of_beq hbn)
        subst this
        exact hs (hases ▸ hns.symm ▸ rfl)
      rw [hnew, List.append_nil]

/-- Trace-level bridge: the session-local view of the final graph is a fold
of `stepView` over the trace. -/
lemma sidView_applyTrace {g : Graph} (hwf : WF g) (sid : String) (τ : List Query) :
    sidView (applyTrace τ g) sid = τ.foldl (stepView sid) (sidView g sid) := by
  induction τ generalizing g with
  | nil => rfl
  | cons q qs ih =>
    have h1 : applyTrace (q :: qs) g = applyTrace qs (applyQuery g q) := by
      unfold applyTrace
      rw [List.foldl_cons]
    rw [h1, List.foldl_cons, ih (WF_applyQuery ⟨hwf.1, hwf.2.1, hwf.2.2⟩ q),
      sidView_applyQuery hwf sid q]

lemma stepView_delete_self (sid : String) (v : SessionView) :
    stepView sid v (Query.deleteSession sid) = ([], []) := by
  simp [stepView]

/-- A trace that begins by purging the session produces a session-local
view that does not depend on the starting graph. -/
lemma sidView_trace_deterministic {g g' : Graph} (hwf : WF g) (hwf' : WF g')
    (sid : String) (τ : List Query) :
    sidView (applyTrace (Query.deleteSession sid :: τ) g) sid =
      sidView (applyTrace (Query.deleteSession sid :: τ) g') sid := by
  rw [sidView_applyTrace hwf, sidView_applyTrace hwf', List.foldl_cons, List.foldl_cons,
    stepView_delete_self, stepView_delete_self]

lemma nextId_applyQuery (g : Graph) (q : Query) : g.nextId ≤ (applyQuery g q).nextId := by
  cases q <;> simp [applyQuery]

lemma nextId_applyTrace (g : Graph) (τ : List Query) :
    g.nextId ≤ (applyTrace τ g).nextId := by
  induction τ generalizing g with
  | nil => exact Nat.le_refl _
  | cons q qs ih =>
    have h1 : applyTrace (q :: qs) g = applyTrace qs (applyQuery g q) := by
      unfold applyTrace
      rw [List.foldl_cons]
    rw [h1]
    exact Nat.le_trans (nextId_applyQuery g q) (ih (g := applyQuery g q))

/-- Every node of the final graph is either an original node or was created
by some `createNode` of the trace, under a fresh id. -/
lemma mem_nodes_applyTrace {τ : List Query} {g : Graph} {m : GNode}
    (hm : m ∈ (applyTrace τ g).nodes) :
    m ∈ g.nodes ∨ (g.nextId ≤ m.nid ∧ ∃ d, Query.createNode d ∈ τ ∧ m.data = d) := by
  induction τ generalizing g with
  | nil => exact Or.inl hm
  | cons q qs ih =>
    have h1 : applyTrace (q :: qs) g = applyTrace qs (applyQuery g q) := by
      unfold applyTrace
      rw [List.foldl_cons]
    rw [h1] at hm
    rcases ih hm with h | ⟨hle, d, hd, hdata⟩
    · cases q with
      | deleteSession s =>
        exact Or.inl (List.mem_of_mem_filter h)
      | createNode d =>
        simp only [applyQuery] at h
        rcases List.mem_append.mp h with h' | h'
        · exact Or.inl h'
        · refine Or.inr ⟨?_, d, List.mem_cons_self _ _, ?_⟩
          · have : m = GNode.mk g.nextId d := by simpa using h'
            rw [this]
          · have : m = GNode.mk g.nextId d := by simpa using h'
            rw [this]
      | createRel r slab sg dlab dg s =>
        exact Or.inl h
    · exact Or.inr ⟨Nat.le_trans (nextId_applyQuery g q) hle, d,
        List.mem_cons_of_mem _ hd, hdata⟩

/-- Nodes persist under a trace containing no session purge. -/
lemma nodes_persist {τ : List Query} {g : Graph} {m : GNode}
    (hτ : ∀ q ∈ τ, ∀ s, q ≠ Query.deleteSession s) (hm : m ∈ g.nodes) :
    m ∈ (applyTrace τ g).nodes := by
  induction τ generalizing g with
  | nil => exact hm
  | cons q qs ih =>
    have h1 : applyTrace (q :: qs) g = applyTrace qs (applyQuery g q) := by
      unfold applyTrace
      rw [List.foldl_cons]
    rw [h1]
    refine ih (fun q' hq' => hτ q' (List.mem_cons_of_mem _ hq')) ?_
    cases q with
    | deleteSession s => exact absurd rfl (hτ _ (List.mem_cons_self _ _) s)
    | createNode d =>
      simp only [applyQuery]
      exact List.mem_append.mpr (Or.inl hm)
    | createRel r slab sg dlab dg s => exact hm

/-- Every edge of the final graph is an original edge or connects two
session-`sid` nodes that are present in the final graph, provided the
trace contains no purge and every relationship statement is
session-`sid`-scoped. -/
lemma edges_applyTrace {τ : List Query} {g : Graph} (sid : String) (P : String → Prop)
    (hτd : ∀ q ∈ τ, ∀ s, q ≠ Query.deleteSession s)
    (hτr : ∀ q ∈ τ, ∀ r slab sg dlab dg s,
      q = Query.createRel r slab sg dlab dg s → s = sid ∧ P r) :
    ∀ e ∈ (applyTrace τ g).edges, e ∈ g.edges ∨
      (P e.relType ∧
        ∃ a ∈ (applyTrace τ g).nodes, ∃ b ∈ (applyTrace τ g).nodes,
          a.nid = e.src ∧ b.nid = e.dst ∧
          a.data.session_id = sid ∧ b.data.session_id = sid) := by
  induction τ generalizing g with
  | nil => exact fun e he => Or.inl he
  | cons q qs ih =>
    intro e he
    have h1 : applyTrace (q :: qs) g = applyTrace qs (applyQuery g q) := by
      unfold applyTrace
      rw [List.foldl_cons]
    rw [h1] at he ⊢
    rcases ih (fun q' hq' => hτd q' (List.mem_cons_of_mem _ hq'))
        (fun q' hq' => hτr q' (List.mem_cons_of_mem _ hq')) e he with h | h
    · cases q with
      | deleteSession s => exact absurd rfl (hτd _ (List.mem_cons_self _ _) s)
      | createNode d => exact Or.inl h
      | createRel r slab sg dlab dg s =>
        simp only [applyQuery] at h
        rcases List.mem_append.mp h with h' | h'
        · exact Or.inl h'
        · obtain ⟨a, ha, hmem⟩ := List.mem_flatMap.mp h'
          obtain ⟨b, hb, rfl⟩ := List.mem_map.mp hmem
          obtain ⟨hss, hPr⟩ :=
            hτr _ (List.mem_cons_self _ _) r slab sg dlab dg s rfl
          have hma : matchData slab sg s a.data = true := (List.mem_filter.mp ha).2
          have hmb : matchData dlab dg s b.data = true := (List.mem_filter.mp hb).2
          have hsa : a.data.session_id = s := by
            unfold matchData at hma
            exact eq_of_beq ((bool_and_eq_true _ _).mp hma).2
          have hsb : b.data.session_id = s := by
            unfold matchData at hmb
            exact eq_of_beq ((bool_and_eq_true _ _).mp hmb).2
          have hag : a ∈ (applyQuery g (Query.createRel r slab sg dlab dg s)).nodes :=
            List.mem_of_mem_filter ha
          have hbg : b ∈ (applyQuery g (Query.createRel r slab sg dlab dg s)).nodes :=
            List.mem_of_mem_filter hb
          refine Or.inr ⟨hPr, a, ?_, b, ?_, rfl, rfl, hss ▸ hsa, hss ▸ hsb⟩
          · exact nodes_persist (fun q' hq' => hτd q' (List.mem_cons_of_mem _ hq')) hag
          · exact nodes_persist (fun q' hq' => hτd q' (List.mem_cons_of_mem _ hq')) hbg
    · exact Or.inr h

/-- Membership extraction for a successful `Option`-valued `mapM`. -/
lemma mapM_option_mem {α β : Type} (f : α → Option β) (l : List α) (l' : List β)
    (h : l.mapM f = some l') : ∀ b ∈ l', ∃ a ∈ l, f a = some b := by
  induction l generalizing l' with
  | nil =>
    simp only [List.mapM_nil, pure] at h
    cases h
    intro b hb
    cases hb
  | cons x xs ih =>
    rw [List.mapM_cons] at h
    cases hfx : f x with
    | none => rw [hfx] at h; simp at h
    | some y =>
      cases hm : xs.mapM f with
      | none => rw [hfx, hm] at h; simp at h
      | some ys =>
        rw [hfx, hm] at h
        have h' : y :: ys = l' := by
          simpa using h
        intro b hb
        rw [← h'] at hb
        rcases List.mem_cons.mp hb with rfl | hb'
        · exact ⟨x, List.mem_cons_self _ _, hfx⟩
        · obtain ⟨a, ha, hfa⟩ := ih ys hm b hb'
          exact ⟨a, List.mem_cons_of_mem _ ha, hfa⟩


/-- Structural inversion of a successful run of `parse_ifc_to_neo4j`: every
`by_type` outside a `try` succeeded, both relationship-deriving loops saw
only non-null `RelatingObject`s, and the trace and geometry list have the
stated shape. -/
lemma parse_some_elim {f : IfcFile} {sid : String} {τ : List Query}
    {geo : List GeometryInfo}
    (hp : parse_ifc_to_neo4j f sid = some (τ, geo)) :
    ∃ products buildings storeys spaces doors windows proxies storeyQs spaceQs,
      byType f "IfcProduct" = some products ∧
      byType f "IfcBuilding" = some buildings ∧
      byType f "IfcBuildingStorey" = some storeys ∧
      (storeys.mapM (fun s => storeyQueries s sid)).map List.flatten = some storeyQs ∧
      byType f "IfcSpace" = some spaces ∧
      (spaces.mapM (fun sp => spaceQueries sp sid)).map List.flatten = some spaceQs ∧
      byType f "IfcDoor" = some doors ∧
      byType f "IfcWindow" = some windows ∧
      byType f "IfcBuildingElementProxy" = some proxies ∧
      τ = Query.deleteSession sid ::
        (buildings.map (fun b => Query.createNode (simpleNodeData "IfcBuilding" b sid)) ++
          storeyQs ++ spaceQs ++
          doors.map (fun d => Query.createNode (simpleNodeData "IfcDoor" d sid)) ++
          windows.map (fun w => Query.createNode (simpleNodeData "IfcWindow" w sid)) ++
          proxies.map (fun e =>
            Query.createNode (simpleNodeData "IfcBuildingElementProxy" e sid)) ++
          furnitureQueries f sid ++ otherElementQueries f sid ++
          products.flatMap (fun p => productRelQueries p sid)) ∧
      geo = (products.take 100).filterMap processGeometry := by
  unfold parse_ifc_to_neo4j at hp
  cases hP : byType f "IfcProduct" with
  | none => rw [hP] at hp; cases hp
  | some products =>
  rw [hP, Option.some_bind] at hp
  cases hB : byType f "IfcBuilding" with
  | none => rw [hB] at hp; cases hp
  | some buildings =>
  rw [hB, Option.some_bind] at hp
  cases hS : byType f "IfcBuildingStorey" with
  | none => rw [hS] at hp; cases hp
  | some storeys =>
  rw [hS, Option.some_bind] at hp
  cases hSQ : (storeys.mapM (fun s => storeyQueries s sid)).map List.flatten with
  | none => rw [hSQ] at hp; cases hp
  | some storeyQs =>
  rw [hSQ, Option.some_bind] at hp
  cases hSp : byType f "IfcSpace" with
  | none => rw [hSp] at hp; cases hp
  | some spaces =>
  rw [hSp, Option.some_bind] at hp
  cases hSpQ : (spaces.mapM (fun sp => spaceQueries sp sid)).map List.flatten with
  | none => rw [hSpQ] at hp; cases hp
  | some spaceQs =>
  rw [hSpQ, Option.some_bind] at hp
  cases hD : byType f "IfcDoor" with
  | none => rw [hD] at hp; cases hp
  | some doors =>
  rw [hD, Option.some_bind] at hp
  cases hW : byType f "IfcWindow" with
  | none => rw [hW] at hp; cases hp
  | some windows =>
  rw [hW, Option.some_bind] at hp
  cases hPr : byType f "IfcBuildingElementProxy" with
  | none => rw [hPr] at hp; cases hp
  | some proxies =>
  rw [hPr, Option.some_bind] at hp
  rw [Option.some_bind] at hp
  simp only [Option.some.injEq, Prod.mk.injEq] at hp
  exact ⟨products, buildings, storeys, spaces, doors, windows, proxies,
    storeyQs, spaceQs, rfl, rfl, rfl, hSQ, rfl, hSpQ, rfl, rfl, rfl,
    hp.1.symm, hp.2.symm⟩

/-- The invariant satisfied by every statement of the trace after the
initial purge: it is never another purge, every `CREATE` carries the
session id of the import, the created labels never include the material labels
documented by the chat service, and every relationship statement is
session-scoped with one of the four spatial relationship types. -/
def tailQueryOK (sid : String) : Query → Prop
  | Query.deleteSession _ => False
  | Query.createNode d => d.session_id = sid ∧
      "IfcMaterial" ∉ d.labels ∧ "IfcMaterialLayerSet" ∉ d.labels
  | Query.createRel r _ _ _ _ s => s = sid ∧
      (r = "CONTAINS_STOREY" ∨ r = "CONTAINS_SPACE" ∨ r = "CONTAINS" ∨ r = "DECOMPOSES")

lemma tailQueryOK_simple {L : String} (h1 : L ≠ "IfcMaterial")
    (h2 : L ≠ "IfcMaterialLayerSet") (e : IfcEntity) (sid : String) :
    tailQueryOK sid (Query.createNode (simpleNodeData L e sid)) := by
  refine ⟨rfl, ?_, ?_⟩
  · simp only [simpleNodeData, List.mem_singleton]
    exact Ne.symm h1
  · simp only [simpleNodeData, List.mem_singleton]
    exact Ne.symm h2

lemma storeyQueries_mem {s : IfcEntity} {sid : String} {l : List Query}
    (h : storeyQueries s sid = some l) : ∀ q ∈ l, tailQueryOK sid q := by
  unfold storeyQueries at h
  rcases Option.map_eq_some'.mp h with ⟨refs, _, hl⟩
  intro q hq
  rw [← hl] at hq
  rcases List.mem_cons.mp hq with rfl | hq'
  · exact ⟨rfl, by simp [storeyNodeData], by simp [storeyNodeData]⟩
  · obtain ⟨ref, _, hrq⟩ := List.mem_filterMap.mp hq'
    by_cases hb : "IfcBuilding" ∈ ref.types
    · rw [if_pos hb] at hrq
      cases hrq
      exact ⟨rfl, Or.inl rfl⟩
    · rw [if_neg hb] at hrq
      cases hrq

lemma spaceQueries_mem {sp : IfcEntity} {sid : String} {l : List Query}
    (h : spaceQueries sp sid = some l) : ∀ q ∈ l, tailQueryOK sid q := by
  unfold spaceQueries at h
  rcases Option.map_eq_some'.mp h with ⟨refs, _, hl⟩
  intro q hq
  rw [← hl] at hq
  rcases List.mem_cons.mp hq with rfl | hq'
  · exact tailQueryOK_simple (by decide) (by decide) sp sid
  · obtain ⟨ref, _, hrq⟩ := List.mem_filterMap.mp hq'
    by_cases hb : "IfcBuildingStorey" ∈ ref.types
    · rw [if_pos hb] at hrq
      cases hrq
      exact ⟨rfl, Or.inr (Or.inl rfl)⟩
    · rw [if_neg hb] at hrq
      cases hrq

lemma furnitureQueries_mem (f : IfcFile) (sid : String) :
    ∀ q ∈ furnitureQueries f sid, tailQueryOK sid q := by
  intro q hq
  unfold furnitureQueries at hq
  obtain ⟨ft, _, hmem⟩ := List.mem_flatMap.mp hq
  obtain ⟨e, _, rfl⟩ := List.mem_map.mp hmem
  exact ⟨rfl, by simp [furnitureNodeData], by simp [furnitureNodeData]⟩

lemma all_element_types_not_material :
    ∀ et ∈ all_element_types, et ≠ "IfcMaterial" ∧ et ≠ "IfcMaterialLayerSet" := by
  decide

lemma otherElementQueries_mem (f : IfcFile) (sid : String) :
    ∀ q ∈ otherElementQueries f sid, tailQueryOK sid q := by
  intro q hq
  unfold otherElementQueries at hq
  obtain ⟨et, het, hmem⟩ := List.mem_flatMap.mp hq
  obtain ⟨e, _, rfl⟩ := List.mem_map.mp hmem
  obtain ⟨h1, h2⟩ := all_element_types_not_material et het
  refine ⟨rfl, ?_, ?_⟩
  · simp only [otherElementNodeData, List.mem_cons, List.mem_singleton, not_or]
    exact ⟨by decide, Ne.symm h1, by simp⟩
  · simp only [otherElementNodeData, List.mem_cons, List.mem_singleton, not_or]
    exact ⟨by decide, Ne.symm h2, by simp⟩

lemma productRelQueries_mem (p : IfcEntity) (sid : String) :
    ∀ q ∈ productRelQueries p sid, tailQueryOK sid q := by
  intro q hq
  unfold productRelQueries at hq
  rcases List.mem_append.mp hq with h | h
  · obtain ⟨r, _, hrq⟩ := List.mem_filterMap.mp h
    obtain ⟨ref, _, rfl⟩ := Option.map_eq_some'.mp hrq
    exact ⟨rfl, Or.inr (Or.inr (Or.inl rfl))⟩
  · obtain ⟨r, _, hrq⟩ := List.mem_filterMap.mp h
    obtain ⟨ref, _, rfl⟩ := Option.map_eq_some'.mp hrq
    exact ⟨rfl, Or.inr (Or.inr (Or.inr rfl))⟩

/-- Shape of every successful trace: an initial purge of the session
followed only by statements satisfying `tailQueryOK`. -/
lemma parse_trace_shape {f : IfcFile} {sid : String} {τ : List Query}
    {geo : List GeometryInfo}
    (hp : parse_ifc_to_neo4j f sid = some (τ, geo)) :
    ∃ tail, τ = Query.deleteSession sid :: tail ∧ ∀ q ∈ tail, tailQueryOK sid q := by
  obtain ⟨products, buildings, storeys, spaces, doors, windows, proxies,
    storeyQs, spaceQs, hP, hB, hS, hSQ, hSp, hSpQ, hD, hW, hPr, hτ, hgeo⟩ :=
    parse_some_elim hp
  refine ⟨_, hτ, ?_⟩
  intro q hq
  rcases List.mem_append.mp hq with hq | hq
  rcases List.mem_append.mp hq with hq | hq
  rcases List.mem_append.mp hq with hq | hq
  rcases List.mem_append.mp hq with hq | hq
  rcases List.mem_append.mp hq with hq | hq
  rcases List.mem_append.mp hq with hq | hq
  rcases List.mem_append.mp hq with hq | hq
  rcases List.mem_append.mp hq with hq | hq
  · obtain ⟨b, _, rfl⟩ := List.mem_map.mp hq
    exact tailQueryOK_simple (by decide) (by decide) b sid
  · rcases Option.map_eq_some'.mp hSQ with ⟨ls, hls, hflat⟩
    rw [← hflat] at hq
    obtain ⟨l, hlmem, hql⟩ := List.mem_flatten.mp hq
    obtain ⟨s, _, hsl⟩ := mapM_option_mem _ _ _ hls l hlmem
    exact storeyQueries_mem hsl q hql
  · rcases Option.map_eq_some'.mp hSpQ with ⟨ls, hls, hflat⟩
    rw [← hflat] at hq
    obtain ⟨l, hlmem, hql⟩ := List.mem_flatten.mp hq
    obtain ⟨sp, _, hsl⟩ := mapM_option_mem _ _ _ hls l hlmem
    exact spaceQueries_mem hsl q hql
  · obtain ⟨d, _, rfl⟩ := List.mem_map.mp hq
    exact tailQueryOK_simple (by decide) (by decide) d sid
  · obtain ⟨w, _, rfl⟩ := List.mem_map.mp hq
    exact tailQueryOK_simple (by decide) (by decide) w sid
  · obtain ⟨e, _, rfl⟩ := List.mem_map.mp hq
    exact tailQueryOK_simple (by decide) (by decide) e sid
  · exact furnitureQueries_mem f sid q hq
  · exact otherElementQueries_mem f sid q hq
  · obtain ⟨p, _, hmem⟩ := List.mem_flatMap.mp hq
    exact productRelQueries_mem p sid q hmem

/-! ## The declared constraints (`neo4j_service.py`, lines 33-51)

`Neo4jService.create_constraints` declares five uniqueness constraints and
three indexes.  Nothing in the backend ever calls this method, so the
running system relies solely on what the import itself guarantees; the
declarations are embedded here as data to settle what uniqueness they
would key on. -/

/-- `CREATE CONSTRAINT IF NOT EXISTS FOR (n:label) REQUIRE n.property IS
UNIQUE`: a graph-wide (not session-scoped) uniqueness requirement. -/
structure UniquenessConstraint where
  label : String
  property : String
deriving DecidableEq, Repr

/-- `CREATE INDEX IF NOT EXISTS FOR (n:label) ON (n.property)`. -/
structure IndexSpec where
  label : String
  property : String
deriving DecidableEq, Repr

/-- The five uniqueness constraints of `create_constraints` (lines 36-40):
each keys on `guid` alone. -/
def create_constraints_unique : List UniquenessConstraint :=
  [{ label := "IfcBuilding", property := "guid" },
   { label := "IfcBuildingStorey", property := "guid" },
   { label := "IfcSpace", property := "guid" },
   { label := "IfcDoor", property := "guid" },
   { label := "IfcWindow", property := "guid" }]

/-- The three indexes of `create_constraints` (lines 41-43): indexes only,
no uniqueness. -/
def create_constraints_indexes : List IndexSpec :=
  [{ label := "IfcBuilding", property := "session_id" },
   { label := "IfcBuildingStorey", property := "session_id" },
   { label := "IfcSpace", property := "session_id" }]

/-! ## Geometry lemmas -/

/-- The stride-3 loop succeeds exactly on lists whose length is a multiple
of three, and then reproduces the list. -/
lemma extendByTriples_some {α : Type} {l l' : List α}
    (h : extendByTriples l = some l') : l' = l ∧ l.length % 3 = 0 := by
  induction l using extendByTriples.induct generalizing l' with
  | case1 =>
    unfold extendByTriples at h
    cases h
    exact ⟨rfl, rfl⟩
  | case2 a b c rest ih =>
    unfold extendByTriples at h
    rcases Option.map_eq_some'.mp h with ⟨t, ht, hl'⟩
    obtain ⟨rfl, hlen⟩ := ih ht
    constructor
    · exact hl'.symm
    · simp only [List.length_cons]
      omega
  | case3 l h1 h2 =>
    unfold extendByTriples at h
    rcases l with _ | ⟨a, _ | ⟨b, _ | ⟨c, rest⟩⟩⟩
    · exact absurd (h1 rfl) not_false
    · cases h
    · cases h
    · exact absurd (h2 a b c rest rfl) not_false

/-! ## Concrete inputs used by witnesses and counterexamples -/

/-- Entity constructor with all optional data absent. -/
def mkEntity (cn : String) (ts : List String) (g : String) : IfcEntity :=
  { className := cn, types := ts, guid := g, name := none, description := none,
    elevation := none, representation := false, shape := none,
    containedInStructure := [], decomposes := [] }

/-- The entity type names queried outside any `try`, present in every IFC
schema, plus `IfcFurnishingElement` (present in IFC2X3 and IFC4). -/
def baseSchema : List String :=
  ["IfcProduct", "IfcBuilding", "IfcBuildingStorey", "IfcSpace",
   "IfcDoor", "IfcWindow", "IfcBuildingElementProxy", "IfcFurnishingElement"]

def cBuilding : IfcEntity :=
  { mkEntity "IfcBuilding" ["IfcBuilding", "IfcProduct"] "B1" with
    name := some "Main Building" }

def cStorey : IfcEntity :=
  { mkEntity "IfcBuildingStorey" ["IfcBuildingStorey", "IfcProduct"] "S1" with
    name := some "Level 1", elevation := some 3,
    decomposes := [some { types := ["IfcBuilding", "IfcObjectDefinition"], guid := "B1" }] }

def cDoor : IfcEntity :=
  { mkEntity "IfcDoor" ["IfcDoor", "IfcProduct"] "D1" with
    representation := true,
    shape := some { verts := [0, 0, 0, 1, 0, 0, 0, 1, 0], faces := [0, 1, 2] },
    containedInStructure := [some { types := ["IfcBuildingStorey"], guid := "S1" }] }

/-- A window whose containment points at a guid that is never materialized:
its `CONTAINS` statement matches nothing and creates no edge. -/
def cDangling : IfcEntity :=
  { mkEntity "IfcWindow" ["IfcWindow", "IfcProduct"] "W1" with
    containedInStructure := [some { types := ["IfcBuildingStorey"], guid := "NOPE" }] }

/-- A small well-formed file: building, storey (in the building), a door
with geometry (in the storey), and a window with a dangling containment. -/
def cFile : IfcFile :=
  { schemaTypes := baseSchema, entities := [cBuilding, cStorey, cDoor, cDangling] }

/-- A node left over from a previous import of session `s`. -/
def oldData : NodeData :=
  { labels := ["IfcBuilding"], guid := "OLD", name := "", description := "",
    session_id := "s", elevation := none, element_type := none }

/-- A starting graph already holding one session-`s` node. -/
def gOld : Graph := { nodes := [GNode.mk 0 oldData], edges := [], nextId := 1 }

lemma wf_gOld : WF gOld := by
  refine ⟨?_, ?_, ?_⟩ <;> simp [gOld, WF]

/-! ## Claims -/

/-- C1: for every file and session id, `parse_ifc_to_neo4j` first purges
all nodes carrying that session id - the `DETACH DELETE` on `session_id`
is the first statement of the trace and no later statement is a purge -
so that after the import completes no node from a previous import of the
same session remains in the graph. -/
theorem C1_purge_before_create (f : IfcFile) (sid : String) (τ : List Query)
    (geo : List GeometryInfo) (g : Graph)
    (hp : parse_ifc_to_neo4j f sid = some (τ, geo)) (hwf : WF g) :
    τ.head? = some (Query.deleteSession sid) ∧
    (∀ q ∈ τ.tail, ∀ s, q ≠ Query.deleteSession s) ∧
    ∀ n ∈ g.nodes, n.data.session_id = sid → n ∉ (applyTrace τ g).nodes := by
  obtain ⟨tail, hτ, htail⟩ := parse_trace_shape hp
  subst hτ
  refine ⟨rfl, ?_, ?_⟩
  · intro q hq s hqs
    have h := htail q hq
    rw [hqs] at h
    exact h
  · intro n hn hns hmem
    have h1 : applyTrace (Query.deleteSession sid :: tail) g =
        applyTrace tail (applyQuery g (Query.deleteSession sid)) := by
      unfold applyTrace
      rw [List.foldl_cons]
    rw [h1] at hmem
    rcases mem_nodes_applyTrace hmem with h | ⟨hle, _, _, _⟩
    · simp only [applyQuery] at h
      have hf := (List.mem_filter.mp h).2
      rw [hns] at hf
      simp at hf
    · have hlt : n.nid < g.nextId := hwf.1 n hn
      have hnx : (applyQuery g (Query.deleteSession sid)).nextId = g.nextId := rfl
      rw [hnx] at hle
      exact absurd (Nat.lt_of_lt_of_le hlt hle) (Nat.lt_irrefl _)

theorem C1_purge_before_create_witness :
    ∃ τ geo, parse_ifc_to_neo4j cFile "s" = some (τ, geo) ∧
      τ.head? = some (Query.deleteSession "s") ∧
      GNode.mk 0 oldData ∉ (applyTrace τ gOld).nodes := by
  cases hq : parse_ifc_to_neo4j cFile "s" with
  | none => exact absurd hq (by decide)
  | some r =>
    obtain ⟨τ, geo⟩ := r
    have h := C1_purge_before_create cFile "s" τ geo gOld hq wf_gOld
    exact ⟨τ, geo, rfl, h.1,
      h.2.2 (GNode.mk 0 oldData) (by simp [gOld]) rfl⟩

/-- C2: re-import is deterministic and idempotent - running the parse
twice with the same file and session id leaves the session's subgraph (up
to renaming of Neo4j-internal node ids) in the same state as running it
once, and every run returns the same trace and geometry data. -/
theorem C2_idempotent_reimport (f : IfcFile) (sid : String) (τ : List Query)
    (geo : List GeometryInfo) (g : Graph)
    (hp : parse_ifc_to_neo4j f sid = some (τ, geo)) (hwf : WF g) :
    sidView (applyTrace τ (applyTrace τ g)) sid = sidView (applyTrace τ g) sid ∧
    ∀ τ' geo', parse_ifc_to_neo4j f sid = some (τ', geo') → τ' = τ ∧ geo' = geo := by
  constructor
  · obtain ⟨tail, hτ, _⟩ := parse_trace_shape hp
    subst hτ
    exact sidView_trace_deterministic (WF_applyTrace hwf _) hwf sid tail
  · intro τ' geo' hp'
    rw [hp] at hp'
    have h := Option.some.inj hp'
    exact ⟨(congrArg Prod.fst h).symm, (congrArg Prod.snd h).symm⟩

theorem C2_idempotent_reimport_witness :
    ∃ τ geo, parse_ifc_to_neo4j cFile "s" = some (τ, geo) ∧
      sidView (applyTrace τ (applyTrace τ Graph.empty)) "s" =
        sidView (applyTrace τ Graph.empty) "s" := by
  cases hq : parse_ifc_to_neo4j cFile "s" with
  | none => exact absurd hq (by decide)
  | some r =>
    obtain ⟨τ, geo⟩ := r
    have h := C2_idempotent_reimport cFile "s" τ geo Graph.empty hq WF_empty
    exact ⟨τ, geo, rfl, h.1⟩

/-- C5: every relationship created by `parse_ifc_to_neo4j` has one of the
four spatial types and connects two nodes that exist in the final graph
and both carry the import's session id; a cross-reference to an entity
that was not materialized yields no edge (an edge of the final graph is
either pre-existing or has both endpoints present, session-scoped). -/
theorem C5_relationship_endpoints (f : IfcFile) (sid : String) (τ : List Query)
    (geo : List GeometryInfo) (g : Graph)
    (hp : parse_ifc_to_neo4j f sid = some (τ, geo)) :
    ∀ e ∈ (applyTrace τ g).edges, e ∈ g.edges ∨
      ((e.relType = "CONTAINS_STOREY" ∨ e.relType = "CONTAINS_SPACE" ∨
          e.relType = "CONTAINS" ∨ e.relType = "DECOMPOSES") ∧
        ∃ a ∈ (applyTrace τ g).nodes, ∃ b ∈ (applyTrace τ g).nodes,
          a.nid = e.src ∧ b.nid = e.dst ∧
          a.data.session_id = sid ∧ b.data.session_id = sid) := by
  obtain ⟨tail, hτ, htail⟩ := parse_trace_shape hp
  subst hτ
  intro e he
  have h1 : applyTrace (Query.deleteSession sid :: tail) g =
      applyTrace tail (applyQuery g (Query.deleteSession sid)) := by
    unfold applyTrace
    rw [List.foldl_cons]
  rw [h1] at he ⊢
  have hτd : ∀ q ∈ tail, ∀ s, q ≠ Query.deleteSession s := by
    intro q hq s hqs
    have h := htail q hq
    rw [hqs] at h
    exact h
  have hτr : ∀ q ∈ tail, ∀ r slab sg dlab dg s,
      q = Query.createRel r slab sg dlab dg s →
        s = sid ∧ (r = "CONTAINS_STOREY" ∨ r = "CONTAINS_SPACE" ∨
          r = "CONTAINS" ∨ r = "DECOMPOSES") := by
    intro q hq r slab sg dlab dg s hqs
    have h := htail q hq
    rw [hqs] at h
    exact h
  rcases edges_applyTrace sid _ hτd hτr e he with h | h
  · exact Or.inl (List.mem_of_mem_filter h)
  · exact Or.inr h

theorem C5_relationship_endpoints_witness :
    ∃ τ geo, parse_ifc_to_neo4j cFile "s" = some (τ, geo) ∧
      ∀ e ∈ (applyTrace τ Graph.empty).edges,
        e ∈ Graph.empty.edges ∨
        ((e.relType = "CONTAINS_STOREY" ∨ e.relType = "CONTAINS_SPACE" ∨
            e.relType = "CONTAINS" ∨ e.relType = "DECOMPOSES") ∧
          ∃ a ∈ (applyTrace τ Graph.empty).nodes,
            ∃ b ∈ (applyTrace τ Graph.empty).nodes,
              a.nid = e.src ∧ b.nid = e.dst ∧
              a.data.session_id = "s" ∧ b.data.session_id = "s") := by
  cases hq : parse_ifc_to_neo4j cFile "s" with
  | none => exact absurd hq (by decide)
  | some r =>
    obtain ⟨τ, geo⟩ := r
    exact ⟨τ, geo, rfl,
      C5_relationship_endpoints cFile "s" τ geo Graph.empty hq⟩

/-- C6: every node created by `parse_ifc_to_neo4j` carries a `session_id`
property equal to the call's session id - a node of the final graph is
either pre-existing or belongs to the import's session. -/
theorem C6_session_partitioning (f : IfcFile) (sid : String) (τ : List Query)
    (geo : List GeometryInfo) (g : Graph)
    (hp : parse_ifc_to_neo4j f sid = some (τ, geo)) :
    ∀ m ∈ (applyTrace τ g).nodes, m ∈ g.nodes ∨ m.data.session_id = sid := by
  obtain ⟨tail, hτ, htail⟩ := parse_trace_shape hp
  subst hτ
  intro m hm
  have h1 : applyTrace (Query.deleteSession sid :: tail) g =
      applyTrace tail (applyQuery g (Query.deleteSession sid)) := by
    unfold applyTrace
    rw [List.foldl_cons]
  rw [h1] at hm
  rcases mem_nodes_applyTrace hm with h | ⟨_, d, hd, hdata⟩
  · exact Or.inl (List.mem_of_mem_filter h)
  · have h := htail _ hd
    exact Or.inr (hdata ▸ h.1)

theorem C6_session_partitioning_witness :
    ∃ τ geo, parse_ifc_to_neo4j cFile "s" = some (τ, geo) ∧
      ∀ m ∈ (applyTrace τ Graph.empty).nodes,
        m ∈ Graph.empty.nodes ∨ m.data.session_id = "s" := by
  cases hq : parse_ifc_to_neo4j cFile "s" with
  | none => exact absurd hq (by decide)
  | some r =>
    obtain ⟨τ, geo⟩ := r
    exact ⟨τ, geo, rfl, C6_session_partitioning cFile "s" τ geo Graph.empty hq⟩

/-- C9: the entity extractor returns a flat record whose `guid` equals the
entity's `GlobalId` and whose `name` and `description` equal the entity's
`Name` and `Description`, defaulting to the empty string when absent; for
a storey the `elevation` field equals the entity's `Elevation`, defaulting
to `0.0` when absent. -/
theorem C9_extract_element_data_fields (e : IfcEntity) (sid : String) :
    (extract_element_data e).guid = e.guid ∧
    (extract_element_data e).name = e.name.getD "" ∧
    (extract_element_data e).description = e.description.getD "" ∧
    (storeyNodeData e sid).elevation = some (e.elevation.getD 0) := by
  refine ⟨rfl, ?_, ?_, ?_⟩
  · show pyStrOrEmpty e.name = e.name.getD ""
    cases e.name with
    | none => rfl
    | some s =>
      by_cases hs : s = "" <;> simp [pyStrOrEmpty, hs]
  · show pyStrOrEmpty e.description = e.description.getD ""
    cases e.description with
    | none => rfl
    | some s =>
      by_cases hs : s = "" <;> simp [pyStrOrEmpty, hs]
  · show some _ = some (e.elevation.getD 0)
    cases e.elevation with
    | none => rfl
    | some x =>
      by_cases hx : x = 0 <;> simp [storeyNodeData, hx]

/-- C10: the geometry list returned by `parse_ifc_to_neo4j` holds at most
100 entries (only the first 100 products are considered), and every entry
has a non-empty vertex list and a non-empty index list whose lengths are
multiples of 3. -/
theorem C10_geometry_bounds (f : IfcFile) (sid : String) (τ : List Query)
    (geo : List GeometryInfo)
    (hp : parse_ifc_to_neo4j f sid = some (τ, geo)) :
    geo.length ≤ 100 ∧
    ∀ gi ∈ geo, gi.vertices ≠ [] ∧ gi.vertices.length % 3 = 0 ∧
      gi.indices ≠ [] ∧ gi.indices.length % 3 = 0 := by
  obtain ⟨products, _, _, _, _, _, _, _, _, _, _, _, _, _, _, _, _, _, _, hgeo⟩ :=
    parse_some_elim hp
  subst hgeo
  constructor
  · have htake : (products.take 100).length ≤ 100 := by
      rw [List.length_take]
      exact Nat.min_le_left _ _
    exact Nat.le_trans (List.length_filterMap_le _ _) htake
  · intro gi hgi
    obtain ⟨p, _, hpg⟩ := List.mem_filterMap.mp hgi
    unfold processGeometry at hpg
    cases hrep : p.representation with
    | false => rw [hrep] at hpg; simp at hpg
    | true =>
      rw [hrep] at hpg
      rw [if_pos rfl] at hpg
      cases hsh : p.shape with
      | none => rw [hsh] at hpg; cases hpg
      | some shape =>
        rw [hsh, Option.some_bind] at hpg
        cases hv : extendByTriples shape.verts with
        | none => rw [hv] at hpg; cases hpg
        | some vertices =>
          rw [hv, Option.some_bind] at hpg
          cases hi : extendByTriples shape.faces with
          | none => rw [hi] at hpg; cases hpg
          | some indices =>
            rw [hi, Option.some_bind] at hpg
            by_cases hlen : 0 < vertices.length ∧ 0 < indices.length
            · rw [if_pos hlen] at hpg
              obtain ⟨hveq, hvmod⟩ := extendByTriples_some hv
              obtain ⟨hieq, himod⟩ := extendByTriples_some hi
              cases hpg
              refine ⟨?_, ?_, ?_, ?_⟩
              · exact List.ne_nil_of_length_pos hlen.1
              · rw [hveq] at hlen ⊢
                exact hvmod
              · exact List.ne_nil_of_length_pos hlen.2
              · rw [hieq] at hlen ⊢
                exact himod
            · rw [if_neg hlen] at hpg
              cases hpg

theorem C10_geometry_bounds_witness :
    ∃ τ geo, parse_ifc_to_neo4j cFile "s" = some (τ, geo) ∧
      geo.length ≤ 100 ∧
      ∀ gi ∈ geo, gi.vertices ≠ [] ∧ gi.vertices.length % 3 = 0 ∧
        gi.indices ≠ [] ∧ gi.indices.length % 3 = 0 := by
  cases hq : parse_ifc_to_neo4j cFile "s" with
  | none => exact absurd hq (by decide)
  | some r =>
    obtain ⟨τ, geo⟩ := r
    exact ⟨τ, geo, rfl, C10_geometry_bounds cFile "s" τ geo hq⟩

/-! ## C4: material assignment -/

/-- Does a statement create a material node or a material relationship
(the node labels and relationship types that `claude_service.py` lines
186-199 document as present in the database)? -/
def mentionsMaterial : Query → Bool
  | Query.createNode d =>
      d.labels.contains "IfcMaterial" || d.labels.contains "IfcMaterialLayerSet"
  | Query.createRel r _ _ _ _ _ =>
      r == "HAS_MATERIAL" || r == "HAS_MATERIAL_LAYER_SET" || r == "CONTAINS_LAYER"
  | Query.deleteSession _ => false

def cWall : IfcEntity :=
  { mkEntity "IfcWall" ["IfcWall", "IfcProduct"] "WA1" with name := some "Wall-1" }

/-- A file containing a wall - the kind of element whose material the chat
layer's documented schema expects to find assigned. -/
def c4File : IfcFile :=
  { schemaTypes := baseSchema ++ ["IfcWall"], entities := [cWall] }

/-- C4: the pipeline derives no material assignments at all.  Importing a
file with a wall succeeds and creates the wall node, but no statement of
the trace creates an `IfcMaterial` or `IfcMaterialLayerSet` node or a
`HAS_MATERIAL` / `HAS_MATERIAL_LAYER_SET` / `CONTAINS_LAYER` relationship
(and by `parse_trace_shape`, no trace of any run ever does): the code
contradicts the schema documented in `claude_service.py` lines 186-199 and
queried by `main.py`. -/
theorem C4_no_material_statements :
    (parse_ifc_to_neo4j c4File "s").map (fun r =>
      (r.1.any (fun q =>
        match q with
        | Query.createNode d => d.labels.contains "IfcWall"
        | _ => false)) &&
      r.1.all (fun q => !(mentionsMaterial q))) = some true := by
  decide

/-! ## C3: per-(type, guid, session) uniqueness -/

/-- An IFC4 furniture entity: `by_type("IfcFurnishingElement")` returns it
(subtype inclusion) and so does `by_type("IfcFurniture")`. -/
def cFurniture : IfcEntity :=
  mkEntity "IfcFurniture" ["IfcFurniture", "IfcFurnishingElement", "IfcProduct"] "F1"

/-- An IFC4 file (schema declares `IfcFurniture`) with one furniture
entity. -/
def c3File : IfcFile :=
  { schemaTypes := baseSchema ++ ["IfcFurniture"], entities := [cFurniture] }

/-- C3 counterexample: importing the IFC4 file with one `IfcFurniture`
entity creates two distinct nodes with the same `IfcFurnishingElement`
label, the same guid and the same session id - node identity is not
unique per (type, global-id, session). -/
theorem C3_counterexample_duplicate_nodes :
    (parse_ifc_to_neo4j c3File "s").map (fun r =>
      ((applyTrace r.1 Graph.empty).nodes.filter (fun n =>
        n.data.labels.contains "IfcFurnishingElement" && (n.data.guid == "F1") &&
          (n.data.session_id == "s"))).length) = some 2 := by
  decide

/-- C3 amended: the import enforces no per-(type, guid, session)
uniqueness - an IFC4 `IfcFurniture` entity is materialized twice under the
`IfcFurnishingElement` label with the same guid and session id (once per
`by_type` query, with `element_type` recording each query type); the only
uniqueness constraints declared in the codebase (`create_constraints`,
never invoked by the pipeline) key on `guid` alone per label, with
session ids covered only by non-unique indexes; and two different sessions
can each hold a node with the same type and guid. -/
theorem C3_amended_no_session_scoped_uniqueness :
    (∀ c ∈ create_constraints_unique, c.property = "guid") ∧
    (∀ ix ∈ create_constraints_indexes, ix.property = "session_id") ∧
    ((parse_ifc_to_neo4j c3File "s").map (fun r =>
      ((applyTrace r.1 Graph.empty).nodes.filter (fun n =>
        n.data.labels.contains "IfcFurnishingElement" && (n.data.guid == "F1") &&
          (n.data.session_id == "s"))).map (fun n => n.data.element_type)) =
      some [some "IfcFurnishingElement", some "IfcFurniture"]) ∧
    ((parse_ifc_to_neo4j c3File "s1").bind (fun r1 =>
      (parse_ifc_to_neo4j c3File "s2").map (fun r2 =>
        (applyTrace r2.1 (applyTrace r1.1 Graph.empty)).nodes.any (fun n =>
          n.data.guid == "F1" && n.data.session_id == "s1") &&
        (applyTrace r2.1 (applyTrace r1.1 Graph.empty)).nodes.any (fun n =>
          n.data.guid == "F1" && n.data.session_id == "s2")))) = some true := by
  exact ⟨by decide, by decide, by decide, by decide⟩

/-! ## C8: failure recovery -/

/-- A storey whose `Decomposes` holds a relation with a null
`RelatingObject` - line 117 dereferences it without the null guard that
the general pass (lines 331-333) has. -/
def c8Storey : IfcEntity :=
  { mkEntity "IfcBuildingStorey" ["IfcBuildingStorey", "IfcProduct"] "S9" with
    decomposes := [none] }

def c8Door : IfcEntity := mkEntity "IfcDoor" ["IfcDoor", "IfcProduct"] "D9"

def c8File : IfcFile := { schemaTypes := baseSchema, entities := [c8Storey, c8Door] }

/-- The same file with the offending relation removed. -/
def c8StoreyFixed : IfcEntity :=
  { mkEntity "IfcBuildingStorey" ["IfcBuildingStorey", "IfcProduct"] "S9" with
    decomposes := [] }

def c8FileFixed : IfcFile :=
  { schemaTypes := baseSchema, entities := [c8StoreyFixed, c8Door] }

/-- C8 counterexample: not every per-entity failure is caught.  A storey
whose decomposition relation has a null `RelatingObject` raises an
uncaught `AttributeError` in the storey loop, aborting the import - the
door in the same file is never imported - while the identical file without
the offending relation imports fine. -/
theorem C8_counterexample_uncaught_storey_failure :
    parse_ifc_to_neo4j c8File "s" = none ∧
    (parse_ifc_to_neo4j c8FileFixed "s").isSome = true := by
  exact ⟨by decide, by decide⟩

lemma mapM_map {α β γ : Type} (g : α → β) (f : β → Option γ) (l : List α) :
    (l.map g).mapM f = l.mapM (fun a => f (g a)) := by
  induction l with
  | nil => rfl
  | cons x xs ih => rw [List.map_cons, List.mapM_cons, List.mapM_cons, ih]

/-- Replace every entity's `create_shape` outcome; all other entity data
is untouched.  This covers, in particular, making every product's geometry
processing fail (a raising `create_shape`, or verts/faces lists whose
stride-3 loop raises `IndexError`). -/
def setShapes (f : IfcFile) (σ : IfcEntity → Option Shape) : IfcFile :=
  { schemaTypes := f.schemaTypes
    entities := f.entities.map (fun e => { e with shape := σ e }) }

/-- C8 amended (the part that holds): geometry-processing failures are
log-and-continue.  However the shapes of a file's entities are changed -
including into shapes whose processing raises - the import still completes
and issues exactly the same statements; only the returned geometry list
differs, and a failing product simply contributes no entry to it. -/
theorem C8_amended_geometry_failures_logged (f : IfcFile) (sid : String)
    (τ : List Query) (geo : List GeometryInfo) (σ : IfcEntity → Option Shape)
    (hp : parse_ifc_to_neo4j f sid = some (τ, geo)) :
    ∃ geo', parse_ifc_to_neo4j (setShapes f σ) sid = some (τ, geo') ∧
      geo' = (((byTypeList f "IfcProduct").map
        (fun e => { e with shape := σ e })).take 100).filterMap processGeometry := by
  have hby : ∀ t, byType (setShapes f σ) t =
      (byType f t).map (List.map (fun e => { e with shape := σ e })) := by
    intro t
    unfold byType setShapes
    by_cases ht : t ∈ f.schemaTypes
    · rw [if_pos ht, if_pos ht, Option.map_some']
      rw [List.filter_map]
      rfl
    · rw [if_neg ht, if_neg ht]
      rfl
  have hbyl : ∀ t, byTypeList (setShapes f σ) t =
      (byTypeList f t).map (fun e => { e with shape := σ e }) := by
    intro t
    unfold byTypeList
    rw [hby t]
    cases byType f t <;> rfl
  have hfurn : furnitureQueries (setShapes f σ) sid = furnitureQueries f sid := by
    unfold furnitureQueries
    have hsch : (setShapes f σ).schemaTypes = f.schemaTypes := rfl
    rw [hsch]
    by_cases hff : "IfcFurniture" ∈ f.schemaTypes
    · refine flatMap_congr_mem _ _ _ ?_
      intro ft _
      rw [hbyl ft, List.map_map]
      rfl
    · refine flatMap_congr_mem _ _ _ ?_
      intro ft _
      rw [hbyl ft, List.map_map]
      rfl
  have hoth : otherElementQueries (setShapes f σ) sid = otherElementQueries f sid := by
    unfold otherElementQueries
    refine flatMap_congr_mem _ _ _ ?_
    intro et _
    rw [hbyl et, List.map_map]
    rfl
  obtain ⟨products, buildings, storeys, spaces, doors, windows, proxies,
    storeyQs, spaceQs, hP, hB, hS, hSQ, hSp, hSpQ, hD, hW, hPr, hτ, hgeo⟩ :=
    parse_some_elim hp
  have hP' : byType (setShapes f σ) "IfcProduct" =
      some (products.map (fun e => { e with shape := σ e })) := by
    rw [hby, hP]
    rfl
  have hB' : byType (setShapes f σ) "IfcBuilding" =
      some (buildings.map (fun e => { e with shape := σ e })) := by
    rw [hby, hB]
    rfl
  have hS' : byType (setShapes f σ) "IfcBuildingStorey" =
      some (storeys.map (fun e => { e with shape := σ e })) := by
    rw [hby, hS]
    rfl
  have hSp' : byType (setShapes f σ) "IfcSpace" =
      some (spaces.map (fun e => { e with shape := σ e })) := by
    rw [hby, hSp]
    rfl
  have hD' : byType (setShapes f σ) "IfcDoor" =
      some (doors.map (fun e => { e with shape := σ e })) := by
    rw [hby, hD]
    rfl
  have hW' : byType (setShapes f σ) "IfcWindow" =
      some (windows.map (fun e => { e with shape := σ e })) := by
    rw [hby, hW]
    rfl
  have hPr' : byType (setShapes f σ) "IfcBuildingElementProxy" =
      some (proxies.map (fun e => { e with shape := σ e })) := by
    rw [hby, hPr]
    rfl
  have hSQ' : (((storeys.map (fun e => { e with shape := σ e })).mapM
      (fun s => storeyQueries s sid)).map List.flatten) = some storeyQs := by
    rw [mapM_map]
    exact hSQ
  have hSpQ' : (((spaces.map (fun e => { e with shape := σ e })).mapM
      (fun sp => spaceQueries sp sid)).map List.flatten) = some spaceQs := by
    rw [mapM_map]
    exact hSpQ
  refine ⟨_, ?_, rfl⟩
  unfold parse_ifc_to_neo4j
  rw [hP', Option.some_bind, hB', Option.some_bind, hS', Option.some_bind,
    hSQ', Option.some_bind, hSp', Option.some_bind, hSpQ', Option.some_bind,
    hD', Option.some_bind, hW', Option.some_bind, hPr', Option.some_bind,
    Option.some_bind]
  rw [hτ, hfurn, hoth]
  rw [List.map_map, List.map_map, List.map_map, List.map_map, List.flatMap_map]
  have hPl : byTypeList f "IfcProduct" = products := by
    unfold byTypeList
    rw [hP]
    rfl
  rw [hPl]
  rfl

theorem C8_amended_geometry_failures_logged_witness :
    ∃ τ geo geo',
      parse_ifc_to_neo4j cFile "s" = some (τ, geo) ∧
      parse_ifc_to_neo4j
        (setShapes cFile (fun _ => some { verts := [1, 2], faces := [0] })) "s" =
        some (τ, geo') := by
  cases hq : parse_ifc_to_neo4j cFile "s" with
  | none => exact absurd hq (by decide)
  | some r =>
    obtain ⟨τ, geo⟩ := r
    obtain ⟨geo', h', _⟩ := C8_amended_geometry_failures_logged cFile "s" τ geo
      (fun _ => some { verts := [1, 2], faces := [0] }) hq
    exact ⟨τ, geo, geo', rfl, h'⟩

/-! ## C7: schema-version tolerance -/

/-- The furnishing-create extractor: the node data of a statement creating
a node under the `IfcFurnishingElement` label. -/
def isFurnishingCreate : Query → Option NodeData
  | Query.createNode d =>
      if d.labels.contains "IfcFurnishingElement" then some d else none
  | _ => none

/-- All `IfcFurnishingElement`-labelled node creations of a trace, in
order. -/
def furnitureCreates (τ : List Query) : List NodeData :=
  τ.filterMap isFurnishingCreate

/-- The entity types `parse_ifc_to_neo4j` queries outside any `try`;
declared by every IFC schema version. -/
def requiredSchemaTypes : List String :=
  ["IfcProduct", "IfcBuilding", "IfcBuildingStorey", "IfcSpace",
   "IfcDoor", "IfcWindow", "IfcBuildingElementProxy"]

def baseTypesOK (f : IfcFile) : Prop :=
  ∀ t ∈ requiredSchemaTypes, t ∈ f.schemaTypes

/-- No decomposition relation of the file has a null `RelatingObject`
(always true of a well-formed IFC file, where the attribute is
mandatory). -/
def noNullRelatingObjects (f : IfcFile) : Prop :=
  ∀ e ∈ f.entities, (none : Option Ref) ∉ e.decomposes

lemma isFurnishingCreate_other {et : String} (h : et ≠ "IfcFurnishingElement")
    (e : IfcEntity) (sid : String) :
    isFurnishingCreate (Query.createNode (otherElementNodeData e et sid)) = none := by
  unfold isFurnishingCreate otherElementNodeData
  have hbe : (("IfcFurnishingElement" == et) : Bool) = false :=
    beq_eq_false_iff_ne.mpr (Ne.symm h)
  simp only [List.contains_cons, hbe]
  simp [Ne.symm h]

lemma storeyQueries_shapes {s : IfcEntity} {sid : String} {l : List Query}
    (h : storeyQueries s sid = some l) :
    ∀ q ∈ l, q = Query.createNode (storeyNodeData s sid) ∨
      ∃ rg, q = Query.createRel "CONTAINS_STOREY" (some "IfcBuilding") rg
        (some "IfcBuildingStorey") s.guid sid := by
  unfold storeyQueries at h
  rcases Option.map_eq_some'.mp h with ⟨refs, _, hl⟩
  intro q hq
  rw [← hl] at hq
  rcases List.mem_cons.mp hq with rfl | hq'
  · exact Or.inl rfl
  · obtain ⟨ref, _, hrq⟩ := List.mem_filterMap.mp hq'
    by_cases hb : "IfcBuilding" ∈ ref.types
    · rw [if_pos hb] at hrq
      cases hrq
      exact Or.inr ⟨ref.guid, rfl⟩
    · rw [if_neg hb] at hrq
      cases hrq

lemma spaceQueries_shapes {sp : IfcEntity} {sid : String} {l : List Query}
    (h : spaceQueries sp sid = some l) :
    ∀ q ∈ l, q = Query.createNode (simpleNodeData "IfcSpace" sp sid) ∨
      ∃ rg, q = Query.createRel "CONTAINS_SPACE" (some "IfcBuildingStorey") rg
        (some "IfcSpace") sp.guid sid := by
  unfold spaceQueries at h
  rcases Option.map_eq_some'.mp h with ⟨refs, _, hl⟩
  intro q hq
  rw [← hl] at hq
  rcases List.mem_cons.mp hq with rfl | hq'
  · exact Or.inl rfl
  · obtain ⟨ref, _, hrq⟩ := List.mem_filterMap.mp hq'
    by_cases hb : "IfcBuildingStorey" ∈ ref.types
    · rw [if_pos hb] at hrq
      cases hrq
      exact Or.inr ⟨ref.guid, rfl⟩
    · rw [if_neg hb] at hrq
      cases hrq

lemma all_element_types_not_furnishing :
    ∀ et ∈ all_element_types, et ≠ "IfcFurnishingElement" := by
  decide

lemma mapM_some_of_forall {α β : Type} (f : α → Option β) (l : List α)
    (h : ∀ a ∈ l, ∃ b, f a = some b) : ∃ l', l.mapM f = some l' := by
  induction l with
  | nil => exact ⟨[], rfl⟩
  | cons x xs ih =>
    obtain ⟨b, hb⟩ := h x (List.mem_cons_self _ _)
    obtain ⟨l', hl'⟩ := ih (fun a ha => h a (List.mem_cons_of_mem _ ha))
    refine ⟨b :: l', ?_⟩
    rw [List.mapM_cons, hb, hl']
    rfl

/-- C7: schema-version tolerance.  The furnishing nodes created by a
run are exactly one `IfcFurnishingElement`-labelled node per
`IfcFurnishingElement` entity, plus - exactly when the schema declares
`IfcFurniture` (IFC4) - one additional such node per `IfcFurniture`
entity, each with `element_type` recording the queried type; and for any
file whose schema declares the seven unconditionally queried types and
whose decomposition relations are well-formed, the import completes
regardless of which optional (try-protected) types the schema declares. -/
theorem C7_schema_version_tolerance (f : IfcFile) (sid : String) (τ : List Query)
    (geo : List GeometryInfo)
    (hp : parse_ifc_to_neo4j f sid = some (τ, geo)) :
    furnitureCreates τ =
      (byTypeList f "IfcFurnishingElement").map
        (fun e => furnitureNodeData e "IfcFurnishingElement" sid) ++
      (if "IfcFurniture" ∈ f.schemaTypes then
        (byTypeList f "IfcFurniture").map
          (fun e => furnitureNodeData e "IfcFurniture" sid)
       else []) ∧
    (∀ f' : IfcFile, baseTypesOK f' → noNullRelatingObjects f' →
      (parse_ifc_to_neo4j f' sid).isSome = true) := by
  constructor
  · obtain ⟨products, buildings, storeys, spaces, doors, windows, proxies,
      storeyQs, spaceQs, hP, hB, hS, hSQ, hSp, hSpQ, hD, hW, hPr, hτ, hgeo⟩ :=
      parse_some_elim hp
    subst hτ
    unfold furnitureCreates
    have h0 : isFurnishingCreate (Query.deleteSession sid) = none := rfl
    rw [List.filterMap_cons, h0]
    rw [List.filterMap_append, List.filterMap_append, List.filterMap_append,
      List.filterMap_append, List.filterMap_append, List.filterMap_append,
      List.filterMap_append, List.filterMap_append]
    have hA : (buildings.map (fun b =>
        Query.createNode (simpleNodeData "IfcBuilding" b sid))).filterMap
          isFurnishingCreate = [] := by
      rw [List.filterMap_map]
      exact List.filterMap_eq_nil_iff.mpr (fun a _ => rfl)
    have hSQe : storeyQs.filterMap isFurnishingCreate = [] := by
      apply List.filterMap_eq_nil_iff.mpr
      intro q hq
      rcases Option.map_eq_some'.mp hSQ with ⟨ls, hls, hflat⟩
      rw [← hflat] at hq
      obtain ⟨l, hlmem, hql⟩ := List.mem_flatten.mp hq
      obtain ⟨s, _, hsl⟩ := mapM_option_mem _ _ _ hls l hlmem
      rcases storeyQueries_shapes hsl q hql with rfl | ⟨rg, rfl⟩
      · rfl
      · rfl
    have hSpQe : spaceQs.filterMap isFurnishingCreate = [] := by
      apply List.filterMap_eq_nil_iff.mpr
      intro q hq
      rcases Option.map_eq_some'.mp hSpQ with ⟨ls, hls, hflat⟩
      rw [← hflat] at hq
      obtain ⟨l, hlmem, hql⟩ := List.mem_flatten.mp hq
      obtain ⟨sp, _, hsl⟩ := mapM_option_mem _ _ _ hls l hlmem
      rcases spaceQueries_shapes hsl q hql with rfl | ⟨rg, rfl⟩
      · rfl
      · rfl
    have hDe : (doors.map (fun d =>
        Query.createNode (simpleNodeData "IfcDoor" d sid))).filterMap
          isFurnishingCreate = [] := by
      rw [List.filterMap_map]
      exact List.filterMap_eq_nil_iff.mpr (fun a _ => rfl)
    have hWe : (windows.map (fun w =>
        Query.createNode (simpleNodeData "IfcWindow" w sid))).filterMap
          isFurnishingCreate = [] := by
      rw [List.filterMap_map]
      exact List.filterMap_eq_nil_iff.mpr (fun a _ => rfl)
    have hPre : (proxies.map (fun e =>
        Query.createNode (simpleNodeData "IfcBuildingElementProxy" e sid))).filterMap
          isFurnishingCreate = [] := by
      rw [List.filterMap_map]
      exact List.filterMap_eq_nil_iff.mpr (fun a _ => rfl)
    have hOth : (otherElementQueries f sid).filterMap isFurnishingCreate = [] := by
      apply List.filterMap_eq_nil_iff.mpr
      intro q hq
      unfold otherElementQueries at hq
      obtain ⟨et, het, hmem⟩ := List.mem_flatMap.mp hq
      obtain ⟨e, _, rfl⟩ := List.mem_map.mp hmem
      exact isFurnishingCreate_other (all_element_types_not_furnishing et het) e sid
    have hRel : (products.flatMap (fun p =>
        productRelQueries p sid)).filterMap isFurnishingCreate = [] := by
      apply List.filterMap_eq_nil_iff.mpr
      intro q hq
      obtain ⟨p, _, hmem⟩ := List.mem_flatMap.mp hq
      unfold productRelQueries at hmem
      rcases List.mem_append.mp hmem with h | h
      · obtain ⟨r, _, hrq⟩ := List.mem_filterMap.mp h
        obtain ⟨ref, _, rfl⟩ := Option.map_eq_some'.mp hrq
        rfl
      · obtain ⟨r, _, hrq⟩ := List.mem_filterMap.mp h
        obtain ⟨ref, _, rfl⟩ := Option.map_eq_some'.mp hrq
        rfl
    have hFurn : (furnitureQueries f sid).filterMap isFurnishingCreate =
        (byTypeList f "IfcFurnishingElement").map
          (fun e => furnitureNodeData e "IfcFurnishingElement" sid) ++
        (if "IfcFurniture" ∈ f.schemaTypes then
          (byTypeList f "IfcFurniture").map
            (fun e => furnitureNodeData e "IfcFurniture" sid)
         else []) := by
      unfold furnitureQueries
      by_cases hff : "IfcFurniture" ∈ f.schemaTypes
      · rw [if_pos hff, if_pos hff]
        rw [List.flatMap_cons, List.flatMap_cons, List.flatMap_nil, List.append_nil]
        rw [List.filterMap_append]
        refine congrArg₂ (· ++ ·) ?_ ?_
        · rw [List.filterMap_map]
          exact filterMap_eq_map_of_mem _ _ _ (fun e _ => rfl)
        · rw [List.filterMap_map]
          exact filterMap_eq_map_of_mem _ _ _ (fun e _ => rfl)
      · rw [if_neg hff, if_neg hff]
        rw [List.flatMap_cons, List.flatMap_nil, List.append_nil]
        rw [List.filterMap_map, List.append_nil]
        exact filterMap_eq_map_of_mem _ _ _ (fun e _ => rfl)
    rw [hA, hSQe, hSpQe, hDe, hWe, hPre, hOth, hRel, hFurn]
    simp
  · intro f' hbase hnull
    have hby : ∀ t ∈ requiredSchemaTypes,
        byType f' t = some (f'.entities.filter (fun e => decide (t ∈ e.types))) := by
      intro t ht
      unfold byType
      rw [if_pos (hbase t ht)]
    have hstoreyQ : ∀ s ∈ f'.entities, ∃ l, storeyQueries s sid = some l := by
      intro s hs
      unfold storeyQueries
      obtain ⟨refs, hrefs⟩ := mapM_some_of_forall id s.decomposes (fun r hr =>
        Option.ne_none_iff_exists'.mp (fun hnone => (hnull s hs) (hnone ▸ hr)))
      refine ⟨Query.createNode (storeyNodeData s sid) ::
        refs.filterMap (fun r =>
          if "IfcBuilding" ∈ r.types then
            some (Query.createRel "CONTAINS_STOREY" (some "IfcBuilding") r.guid
              (some "IfcBuildingStorey") s.guid sid)
          else none), ?_⟩
      rw [hrefs]
      rfl
    have hspaceQ : ∀ sp ∈ f'.entities, ∃ l, spaceQueries sp sid = some l := by
      intro sp hs
      unfold spaceQueries
      obtain ⟨refs, hrefs⟩ := mapM_some_of_forall id sp.decomposes (fun r hr =>
        Option.ne_none_iff_exists'.mp (fun hnone => (hnull sp hs) (hnone ▸ hr)))
      refine ⟨Query.createNode (simpleNodeData "IfcSpace" sp sid) ::
        refs.filterMap (fun r =>
          if "IfcBuildingStorey" ∈ r.types then
            some (Query.createRel "CONTAINS_SPACE" (some "IfcBuildingStorey") r.guid
              (some "IfcSpace") sp.guid sid)
          else none), ?_⟩
      rw [hrefs]
      rfl
    obtain ⟨sls, hsls⟩ := mapM_some_of_forall (fun s => storeyQueries s sid)
      (f'.entities.filter (fun e => decide ("IfcBuildingStorey" ∈ e.types)))
      (fun s hs => hstoreyQ s (List.mem_of_mem_filter hs))
    obtain ⟨spls, hspls⟩ := mapM_some_of_forall (fun sp => spaceQueries sp sid)
      (f'.entities.filter (fun e => decide ("IfcSpace" ∈ e.types)))
      (fun sp hs => hspaceQ sp (List.mem_of_mem_filter hs))
    unfold parse_ifc_to_neo4j
    rw [hby "IfcProduct" (by decide), Option.some_bind,
      hby "IfcBuilding" (by decide), Option.some_bind,
      hby "IfcBuildingStorey" (by decide), Option.some_bind,
      hsls, Option.map_some', Option.some_bind,
      hby "IfcSpace" (by decide), Option.some_bind,
      hspls, Option.map_some', Option.some_bind,
      hby "IfcDoor" (by decide), Option.some_bind,
      hby "IfcWindow" (by decide), Option.some_bind,
      hby "IfcBuildingElementProxy" (by decide), Option.some_bind,
      Option.some_bind]
    rfl

theorem C7_schema_version_tolerance_witness :
    ∃ τ geo, parse_ifc_to_neo4j c3File "s" = some (τ, geo) ∧
      furnitureCreates τ =
        (byTypeList c3File "IfcFurnishingElement").map
          (fun e => furnitureNodeData e "IfcFurnishingElement" "s") ++
        (if "IfcFurniture" ∈ c3File.schemaTypes then
          (byTypeList c3File "IfcFurniture").map
            (fun e => furnitureNodeData e "IfcFurniture" "s")
         else []) ∧
      (parse_ifc_to_neo4j cFile "s").isSome = true := by
  cases hq : parse_ifc_to_neo4j c3File "s" with
  | none => exact absurd hq (by decide)
  | some r =>
    obtain ⟨τ, geo⟩ := r
    have h := C7_schema_version_tolerance c3File "s" τ geo hq
    refine ⟨τ, geo, rfl, h.1, ?_⟩
    refine h.2 cFile ?_ ?_
    · unfold baseTypesOK
      decide
    · unfold noNullRelatingObjects
      decide
